/-
Verification of the Emu ensemble-construction core
(src/Source/FlavoredNeutrinoContainerInit.cpp) against its specification.

The C++ code is shallowly embedded:
* the particle-injection (count / prefix-sum / write) passes of
  FlavoredNeutrinoContainer::InitParticles are modelled computably over ℚ
  (the arithmetic there is affine, so exact rationals mirror it);
* the direction-set generator uniform_sphere_xyz, the Minerbo solver and the
  Lyapunov routines are modelled over ℝ in exact real arithmetic, with every
  random draw passed in as an explicit parameter;
* amrex::Error (fatal abort) and amrex::Print (a log line) are modelled as
  explicit events, so that "aborts" is distinguishable from "logs a message".
-/
import Mathlib

/-! ### Part 1: particle injection (InitParticles count / scan / write passes)

The tile geometry and physical bounds are rational parameters.  A `BuildCfg`
packages what the two passes read: the tile box `[lo, hi]` (integer cell
coordinates), particles-per-cell `nppc`, grid origin `plo` and spacing `dx`,
the problem-domain bounds `[blo, bhi)`, and the number of direction vectors
`ndirs` per accepted lattice location. -/

structure BuildCfg where
  lox : ℤ
  loy : ℤ
  loz : ℤ
  hix : ℤ
  hiy : ℤ
  hiz : ℤ
  nppcx : ℕ
  nppcy : ℕ
  nppcz : ℕ
  plox : ℚ
  ploy : ℚ
  ploz : ℚ
  dxx : ℚ
  dxy : ℚ
  dxz : ℚ
  blox : ℚ
  bloy : ℚ
  bloz : ℚ
  bhix : ℚ
  bhiy : ℚ
  bhiz : ℚ
  ndirs : ℕ

/-- Source `nlocs_per_cell = nppc[0]*nppc[1]*nppc[2]`. -/
def BuildCfg.nlocs (c : BuildCfg) : ℕ := c.nppcx * c.nppcy * c.nppcz

/-- Number of cells along each axis of the tile box (`hi - lo + 1`). -/
def BuildCfg.nx (c : BuildCfg) : ℤ := c.hix - c.lox + 1
def BuildCfg.ny (c : BuildCfg) : ℤ := c.hiy - c.loy + 1
def BuildCfg.nz (c : BuildCfg) : ℤ := c.hiz - c.loz + 1

/-- Source `tile_box.numPts()`. -/
def BuildCfg.numPts (c : BuildCfg) : ℕ := (c.nx * c.ny * c.nz).toNat

/-- Source `get_position_unit_cell`: sub-cell offsets of lattice point `i_part`
(the index arithmetic is C++ integer division/modulus on nonnegative ints,
which coincides with ℕ division/modulus). -/
def get_position_unit_cell (nppcx nppcy nppcz i_part : ℕ) : ℚ × ℚ × ℚ :=
  let ix_part := i_part / (nppcy * nppcz)
  let iy_part := (i_part % (nppcy * nppcz)) % nppcy
  let iz_part := (i_part % (nppcy * nppcz)) / nppcy
  (((1:ℚ)/2 + ix_part) / nppcx,
   ((1:ℚ)/2 + iy_part) / nppcy,
   ((1:ℚ)/2 + iz_part) / nppcz)

/-- Physical position of lattice point `i_part` of cell `(i,j,k)`:
`x = plo + (i + r)*dx` componentwise. -/
def cellPos (c : BuildCfg) (i j k : ℤ) (i_part : ℕ) : ℚ × ℚ × ℚ :=
  let r := get_position_unit_cell c.nppcx c.nppcy c.nppcz i_part
  (c.plox + ((i : ℚ) + r.1) * c.dxx,
   c.ploy + ((j : ℚ) + r.2.1) * c.dxy,
   c.ploz + ((k : ℚ) + r.2.2) * c.dxz)

/-- The domain test of both passes: the point is kept unless
`x >= bhi || x < blo` on some axis (`continue` skips it). -/
def insideDomain (c : BuildCfg) (p : ℚ × ℚ × ℚ) : Bool :=
  decide (p.1 < c.bhix) && decide (c.blox ≤ p.1) &&
  decide (p.2.1 < c.bhiy) && decide (c.bloy ≤ p.2.1) &&
  decide (p.2.2 < c.bhiz) && decide (c.bloz ≤ p.2.2)

/-- Clamped linear cell index, identical in the count and write passes:
`uix = min(nx-1, max(0, i - lo.x))` etc., `cellid = (uix*ny + uiy)*nz + uiz`. -/
def cellid (c : BuildCfg) (i j k : ℤ) : ℕ :=
  let uix := (min (c.nx - 1) (max 0 (i - c.lox))).toNat
  let uiy := (min (c.ny - 1) (max 0 (j - c.loy))).toNat
  let uiz := (min (c.nz - 1) (max 0 (k - c.loz))).toNat
  (uix * c.ny.toNat + uiy) * c.nz.toNat + uiz

/-- Cells of the tile box, in the same linear order as `cellid`. -/
def boxCells (c : BuildCfg) : List (ℤ × ℤ × ℤ) :=
  (List.range c.nx.toNat).flatMap fun a =>
    (List.range c.ny.toNat).flatMap fun b =>
      (List.range c.nz.toNat).map fun d =>
        (c.lox + a, c.loy + b, c.loz + d)

/-- Source `pcount[cellid] += d` on a counts array stored as a list. -/
def bumpAt : List ℕ → ℕ → ℕ → List ℕ
  | [], _, _ => []
  | x :: xs, 0, d => (x + d) :: xs
  | x :: xs, n + 1, d => x :: bumpAt xs n d

/-- The count pass: for every cell of the tile box and every lattice point,
if the physical position is inside the domain, add `ndirs` to that cell's
pending count. -/
def countsOf (c : BuildCfg) : List ℕ :=
  (boxCells c).foldl
    (fun l cell =>
      (List.range c.nlocs).foldl
        (fun l2 i_part =>
          if insideDomain c (cellPos c cell.1 cell.2.1 cell.2.2 i_part) then
            bumpAt l2 (cellid c cell.1 cell.2.1 cell.2.2) c.ndirs
          else l2)
        l)
    (List.replicate c.numPts 0)

/-- Source `Gpu::inclusive_scan`: `offsets[i] = counts[0] + ... + counts[i]`. -/
def inclScan (acc : ℕ) : List ℕ → List ℕ
  | [] => []
  | x :: xs => (acc + x) :: inclScan (acc + x) xs

def offsetsOf (c : BuildCfg) : List ℕ := inclScan 0 (countsOf c)

/-- List lookup with default 0, as reading the offsets array. -/
def nthD : List ℕ → ℕ → ℕ
  | [], _ => 0
  | x :: _, 0 => x
  | _ :: xs, n + 1 => nthD xs n

/-- Source `num_to_add = offsets[tile_box.numPts()-1]`, the last scan value. -/
def numToAdd (c : BuildCfg) : ℕ := ((offsetsOf c).getLast?).getD 0

/-- The write pass, recorded as the list of zero-based slot indices `pidx`
in write order: for each cell, for each lattice point that passes the same
domain test, for each direction,
`pidx = poffset[cellid] - poffset[0] + i_loc*ndirs + i_direction`
(the C++ subtraction is on unsigned ints; the inclusive scan is monotone in
`cellid`, so natural subtraction coincides with it). -/
def writesPidx (c : BuildCfg) : List ℕ :=
  (boxCells c).flatMap fun cell =>
    (List.range c.nlocs).flatMap fun i_loc =>
      if insideDomain c (cellPos c cell.1 cell.2.1 cell.2.2 i_loc) then
        (List.range c.ndirs).map fun i_direction =>
          nthD (offsetsOf c) (cellid c cell.1 cell.2.1 cell.2.2)
            - nthD (offsetsOf c) 0 + i_loc * c.ndirs + i_direction
      else []

/-- Particle ids assigned by the write pass: `p.id() = new_pid + pidx`. -/
def writeIds (c : BuildCfg) (new_pid : ℕ) : List ℕ :=
  (writesPidx c).map (fun pidx => new_pid + pidx)

/-- The tile used to refute the C1 id-uniqueness claim: two cells along x,
two lattice points per cell along x, one direction; the domain bound
`bhix = 6` cuts the second cell between its two lattice points, so the
per-cell pending counts are `[2, 1]`. -/
def exCfg : BuildCfg :=
  { lox := 0, loy := 0, loz := 0, hix := 1, hiy := 0, hiz := 0,
    nppcx := 2, nppcy := 1, nppcz := 1,
    plox := 0, ploy := 0, ploz := 0, dxx := 4, dxy := 4, dxz := 4,
    blox := 0, bloy := 0, bloz := 0, bhix := 6, bhiy := 4, bhiz := 4,
    ndirs := 1 }

/-- A 2x2x2 cell tile, one lattice point per cell, `k` directions, with the
problem domain `[0,2)` per axis containing every lattice position. -/
def cubeCfg (k : ℕ) : BuildCfg :=
  { lox := 0, loy := 0, loz := 0, hix := 1, hiy := 1, hiz := 1,
    nppcx := 1, nppcy := 1, nppcz := 1,
    plox := 0, ploy := 0, ploz := 0, dxx := 1, dxy := 1, dxz := 1,
    blox := 0, bloy := 0, bloz := 0, bhix := 2, bhiy := 2, bhiz := 2,
    ndirs := k }


/-! ### Part 2: the direction set generator `uniform_sphere_xyz`

Modelled over ℝ in exact real arithmetic (hence noncomputably); the C++
`while` loop is written with explicit fuel `n+1`, which is never exhausted
while the loop guard holds since `theta` advances by `dtheta = pi*sqrt(3)/n`
every iteration.  (When a ring's `nphi` rounds to 0, C++ would produce an
infinite `dphi`; over ℝ the junk value `2*pi/0 = 0` only ever enters the
unused `phi0` of later rings, which no claim inspects.) -/

open scoped Classical in
/-- Ring azimuthal count: `nphi = (theta==0) ? nphi_at_equator : lround(nphi_at_equator*cos(theta))`
(the argument is nonnegative over the reachable `theta`, where C's `lround`
agrees with Mathlib's `round`). -/
noncomputable def nphiOf (n : ℕ) (θ : ℝ) : ℕ :=
  if θ = 0 then n else (round ((n : ℝ) * Real.cos θ)).toNat

/-- Source `dphi = 2*pi/nphi`. -/
noncomputable def dphiOf (n : ℕ) (θ : ℝ) : ℝ := 2 * Real.pi / (nphiOf n θ : ℝ)

open scoped Classical in
/-- Source `if(nphi==1) theta = pi/2`: the latitude actually used by the ring body. -/
noncomputable def thetaUsed (n : ℕ) (θ : ℝ) : ℝ :=
  if nphiOf n θ = 1 then Real.pi / 2 else θ

/-- Source `dtheta = pi*sqrt(3)/nphi_at_equator`. -/
noncomputable def dthetaOf (n : ℕ) : ℝ := Real.pi * Real.sqrt 3 / n

open scoped Classical in
/-- One latitude ring: for `iphi < nphi`, emit
`(cos theta cos phi, cos theta sin phi, sin theta)` with `phi = phi0 + iphi*dphi`,
followed by its exact negation when `theta > 0`. -/
noncomputable def ringPoints (θ phi0 dphi : ℝ) (nphi : ℕ) : List (ℝ × ℝ × ℝ) :=
  (List.range nphi).flatMap fun iphi =>
    (Real.cos θ * Real.cos (phi0 + iphi * dphi),
     Real.cos θ * Real.sin (phi0 + iphi * dphi),
     Real.sin θ) ::
    (if 0 < θ then
      [(-(Real.cos θ * Real.cos (phi0 + iphi * dphi)),
        -(Real.cos θ * Real.sin (phi0 + iphi * dphi)),
        -(Real.sin θ))]
    else [])

open scoped Classical in
/-- The `while(theta < pi/2)` loop of `uniform_sphere_xyz`, with explicit fuel.
Each iteration advances `theta` by `dtheta > 0`, so `n+1` units of fuel are
never exhausted while the guard holds. -/
noncomputable def sphereAux (n : ℕ) : ℕ → ℝ → ℝ → List (ℝ × ℝ × ℝ)
  | 0, _, _ => []
  | fuel + 1, θ, phi0 =>
    if θ < Real.pi / 2 then
      ringPoints (thetaUsed n θ) phi0 (dphiOf n θ) (nphiOf n θ) ++
        sphereAux n fuel (thetaUsed n θ + dthetaOf n) (phi0 + dphiOf n θ / 2)
    else []

/-- Source `uniform_sphere_xyz(nphi_at_equator)`: `theta` and `phi0` start at 0. -/
noncomputable def uniform_sphere_xyz (n : ℕ) : List (ℝ × ℝ × ℝ) :=
  sphereAux n (n + 1) 0 0


/-! ### Part 3: the Minerbo solver and recipe 5 (simulation type 5) -/

/-- Residual of the Minerbo root find:
`fluxfac - 1/tanh(Z) + 1/Z`. -/
noncomputable def minerbo_residual (fluxfac Z : ℝ) : ℝ :=
  fluxfac - 1 / Real.tanh Z + 1 / Z

/-- Its derivative as coded: `1/sinh(Z)^2 - 1/Z^2` (the `fluxfac` argument is
unused, as in the source). -/
noncomputable def minerbo_residual_derivative (fluxfac Z : ℝ) : ℝ :=
  1 / (Real.sinh Z * Real.sinh Z) - 1 / (Z * Z)

/-- One Newton body execution on the state `(Z, residual)`: the body first
stores `residual = minerbo_residual(fluxfac, Z)` and then updates
`Z -= residual/slope`. -/
noncomputable def minerboStep (fluxfac : ℝ) (s : ℝ × ℝ) : ℝ × ℝ :=
  (s.1 - minerbo_residual fluxfac s.1 / minerbo_residual_derivative fluxfac s.1,
   minerbo_residual fluxfac s.1)

open scoped Classical in
/-- The `while(std::abs(residual)>maxresidual and count<maxcount)` loop;
`fuel` is the remaining iteration budget `maxcount - count`. -/
noncomputable def minerboLoop (fluxfac : ℝ) : ℕ → ℝ × ℝ → ℝ × ℝ
  | 0, s => s
  | fuel + 1, s =>
    if (1e-6 : ℝ) < |s.2| then minerboLoop fluxfac fuel (minerboStep fluxfac s) else s

open scoped Classical in
/-- Source `minerbo_Z`: returns the computed `Z` together with the abort flag of the
final `if(residual>maxresidual) amrex::Error(...)` check (note: the code
tests the signed residual there, not its magnitude).  For
`fluxfac < minfluxfac = 1e-3` it returns `3*fluxfac` directly and never
aborts. -/
noncomputable def minerbo_Z (fluxfac : ℝ) : ℝ × Bool :=
  if fluxfac < (1e-3 : ℝ) then (3 * fluxfac, false)
  else
    ((minerboLoop fluxfac 20 (1, 1)).1,
     if (1e-6 : ℝ) < (minerboLoop fluxfac 20 (1, 1)).2 then true else false)

open scoped Classical in
/-- Source `minerbo_closure(Z, mu)`: `exp(Z*mu)`, multiplied by `Z/sinh(Z)` when
`Z/3 > minfluxfac`. -/
noncomputable def minerbo_closure (Z mu : ℝ) : ℝ :=
  if (1e-3 : ℝ) < Z / 3 then Real.exp (Z * mu) * (Z / Real.sinh Z)
  else Real.exp (Z * mu)

/-- Parameters read by simulation type 5 (Minerbo closure, multi-species). -/
structure St5Params where
  st5_nnue : ℝ
  st5_nnua : ℝ
  st5_nnux : ℝ
  st5_fxnue : ℝ
  st5_fynue : ℝ
  st5_fznue : ℝ
  st5_fxnua : ℝ
  st5_fynua : ℝ
  st5_fznua : ℝ
  st5_fxnux : ℝ
  st5_fynux : ℝ
  st5_fznux : ℝ
  st5_avgE_MeV : ℝ
  st5_amplitude : ℝ

/-- Source `fluxfac_e = sqrt(fx^2+fy^2+fz^2)` for the electron species. -/
noncomputable def fluxfac_e (P : St5Params) : ℝ :=
  Real.sqrt (P.st5_fxnue * P.st5_fxnue + P.st5_fynue * P.st5_fynue +
    P.st5_fznue * P.st5_fznue)

noncomputable def fluxfac_a (P : St5Params) : ℝ :=
  Real.sqrt (P.st5_fxnua * P.st5_fxnua + P.st5_fynua * P.st5_fynua +
    P.st5_fznua * P.st5_fznua)

noncomputable def fluxfac_x (P : St5Params) : ℝ :=
  Real.sqrt (P.st5_fxnux * P.st5_fxnux + P.st5_fynux * P.st5_fynux +
    P.st5_fznux * P.st5_fznux)

/-- The flavor state and momentum written by recipe 5 for one sample point
(the `NUM_FLAVORS==3` build). -/
structure St5Out where
  pupt : ℝ
  pupx : ℝ
  pupy : ℝ
  pupz : ℝ
  N : ℝ
  Nbar : ℝ
  f00_Re : ℝ
  f11_Re : ℝ
  f22_Re : ℝ
  f00_Rebar : ℝ
  f11_Rebar : ℝ
  f22_Rebar : ℝ
  f01_Re : ℝ
  f01_Im : ℝ
  f01_Rebar : ℝ
  f01_Imbar : ℝ
  f02_Re : ℝ
  f02_Im : ℝ
  f12_Re : ℝ
  f12_Im : ℝ
  f02_Rebar : ℝ
  f02_Imbar : ℝ
  f12_Rebar : ℝ
  f12_Imbar : ℝ

open scoped Classical in
/-- Local `mue` of recipe 5: cosine of the angle between the direction and
the electron-flavor flux vector (0 when the flux factor vanishes). -/
noncomputable def st5_mue (P : St5Params) (u : ℝ × ℝ × ℝ) : ℝ :=
  if 0 < fluxfac_e P then
    (P.st5_fxnue * u.1 + P.st5_fynue * u.2.1 + P.st5_fznue * u.2.2) / fluxfac_e P
  else 0

open scoped Classical in
/-- Local `mua` of recipe 5. -/
noncomputable def st5_mua (P : St5Params) (u : ℝ × ℝ × ℝ) : ℝ :=
  if 0 < fluxfac_a P then
    (P.st5_fxnua * u.1 + P.st5_fynua * u.2.1 + P.st5_fznua * u.2.2) / fluxfac_a P
  else 0

open scoped Classical in
/-- Local `mux` of recipe 5. -/
noncomputable def st5_mux (P : St5Params) (u : ℝ × ℝ × ℝ) : ℝ :=
  if 0 < fluxfac_x P then
    (P.st5_fxnux * u.1 + P.st5_fynux * u.2.1 + P.st5_fznux * u.2.2) / fluxfac_x P
  else 0

/-- Local `Nnue_thisparticle` of recipe 5. -/
noncomputable def Nnue_thisparticle (P : St5Params) (scale_fac : ℝ) (u : ℝ × ℝ × ℝ) : ℝ :=
  P.st5_nnue * scale_fac * minerbo_closure (minerbo_Z (fluxfac_e P)).1 (st5_mue P u)

/-- Local `Nnua_thisparticle` of recipe 5. -/
noncomputable def Nnua_thisparticle (P : St5Params) (scale_fac : ℝ) (u : ℝ × ℝ × ℝ) : ℝ :=
  P.st5_nnua * scale_fac * minerbo_closure (minerbo_Z (fluxfac_a P)).1 (st5_mua P u)

/-- Local `Nnux_thisparticle` of recipe 5 (the heavy-lepton density counts
each of the four mu/tau species, hence the division by 4). -/
noncomputable def Nnux_thisparticle (P : St5Params) (scale_fac : ℝ) (u : ℝ × ℝ × ℝ) : ℝ :=
  P.st5_nnux * scale_fac * minerbo_closure (minerbo_Z (fluxfac_x P)).1 (st5_mux P u) / 4

/-- Simulation type 5 body (lines 595-665), for one sample point with
direction `u` and the twelve off-diagonal random draws `r`.  `eV` is the
constant `CGSUnitsConst::eV` from a header outside the repository slice;
`scale_fac = dx^3/nlocs_per_cell/ndirs_per_loc`.  `N = Nnue + Nnux` gains a
second `Nnux` in the `NUM_FLAVORS==3` build, and likewise `Nbar`. -/
noncomputable def recipe5 (P : St5Params) (scale_fac eV : ℝ) (u : ℝ × ℝ × ℝ)
    (r : Fin 12 → ℝ) : St5Out :=
  let pupt := P.st5_avgE_MeV * 1e6 * eV
  let Nnue := Nnue_thisparticle P scale_fac u
  let Nnua := Nnua_thisparticle P scale_fac u
  let Nnux := Nnux_thisparticle P scale_fac u
  let N := Nnue + Nnux + Nnux
  let Nbar := Nnua + Nnux + Nnux
  { pupt := pupt
    pupx := u.1 * pupt
    pupy := u.2.1 * pupt
    pupz := u.2.2 * pupt
    N := N
    Nbar := Nbar
    f00_Re := Nnue / N
    f11_Re := Nnux / N
    f22_Re := Nnux / N
    f00_Rebar := Nnua / Nbar
    f11_Rebar := Nnux / Nbar
    f22_Rebar := Nnux / Nbar
    f01_Re := P.st5_amplitude * r 0 * (Nnue / N - Nnux / N)
    f01_Im := P.st5_amplitude * r 1 * (Nnue / N - Nnux / N)
    f01_Rebar := P.st5_amplitude * r 2 * (Nnua / Nbar - Nnux / Nbar)
    f01_Imbar := P.st5_amplitude * r 3 * (Nnua / Nbar - Nnux / Nbar)
    f02_Re := P.st5_amplitude * r 4 * (Nnue / N - Nnux / N)
    f02_Im := P.st5_amplitude * r 5 * (Nnue / N - Nnux / N)
    f12_Re := P.st5_amplitude * r 6 * (Nnux / N - Nnux / N)
    f12_Im := P.st5_amplitude * r 7 * (Nnux / N - Nnux / N)
    f02_Rebar := P.st5_amplitude * r 8 * (Nnua / Nbar - Nnux / Nbar)
    f02_Imbar := P.st5_amplitude * r 9 * (Nnua / Nbar - Nnux / Nbar)
    f12_Rebar := P.st5_amplitude * r 10 * (Nnux / Nbar - Nnux / Nbar)
    f12_Imbar := P.st5_amplitude * r 11 * (Nnux / Nbar - Nnux / Nbar) }

/-- Concrete recipe-5 parameters for the C6 witness: unit number densities,
zero flux vectors. -/
def st5W : St5Params :=
  { st5_nnue := 1, st5_nnua := 1, st5_nnux := 1,
    st5_fxnue := 0, st5_fynue := 0, st5_fznue := 0,
    st5_fxnua := 0, st5_fynua := 0, st5_fznua := 0,
    st5_fxnux := 0, st5_fynux := 0, st5_fznux := 0,
    st5_avgE_MeV := 50, st5_amplitude := 0 }


/-! ### Part 4: sample points, recipes 6-7, and the Lyapunov subsystem

The Lyapunov routines are modelled for one tile pair: with a single tile
per ensemble the cross-tile matching preamble of the C++ reduces to the
same inner particle search that the per-particle loops perform. -/

/-- One sample point ("particle") of the `NUM_FLAVORS==3` build: AoS id/cpu
and position, plus the named `rdata` components. -/
structure Particle where
  id : ℤ
  cpu : ℤ
  pos0 : ℝ
  pos1 : ℝ
  pos2 : ℝ
  x : ℝ
  y : ℝ
  z : ℝ
  time : ℝ
  pupt : ℝ
  pupx : ℝ
  pupy : ℝ
  pupz : ℝ
  N : ℝ
  Nbar : ℝ
  f00_Re : ℝ
  f01_Re : ℝ
  f01_Im : ℝ
  f02_Re : ℝ
  f02_Im : ℝ
  f11_Re : ℝ
  f12_Re : ℝ
  f12_Im : ℝ
  f22_Re : ℝ
  f00_Rebar : ℝ
  f01_Rebar : ℝ
  f01_Imbar : ℝ
  f02_Rebar : ℝ
  f02_Imbar : ℝ
  f11_Rebar : ℝ
  f12_Rebar : ℝ
  f12_Imbar : ℝ
  f22_Rebar : ℝ

/-- Source `PerturbParticlesLyapunov` body for one particle (`NUM_FLAVORS==3`
block, lines 829-885): `A` is `parms->Perturbation_Amplitud_Lyapunov` and
`r 0, ..., r 17` are the eighteen successive `symmetric_uniform` draws in
source order.  All per-component perturbation amounts are computed from the
incoming values before any write. -/
noncomputable def perturbP (A : ℝ) (r : Fin 18 → ℝ) (p : Particle) : Particle :=
  let f00_Re_Perturb := A * r 0
  let f01_Re_Perturb := A * r 1 * (p.f00_Re + p.f11_Re)
  let f01_Im_Perturb := A * r 2 * (p.f00_Re + p.f11_Re)
  let f11_Re_Perturb := A * r 3
  let f00_Rebar_Perturb := A * r 4
  let f01_Rebar_Perturb := A * r 5 * (p.f00_Rebar + p.f11_Rebar)
  let f01_Imbar_Perturb := A * r 6 * (p.f00_Rebar + p.f11_Rebar)
  let f11_Rebar_Perturb := A * r 7
  let f22_Re_Perturb := A * r 8
  let f22_Rebar_Perturb := A * r 9
  let f02_Re_Perturb := A * r 10 * (p.f00_Re + p.f22_Re)
  let f02_Im_Perturb := A * r 11 * (p.f00_Re + p.f22_Re)
  let f12_Re_Perturb := A * r 12 * (p.f11_Re + p.f22_Re)
  let f12_Im_Perturb := A * r 13 * (p.f11_Re + p.f22_Re)
  let f02_Rebar_Perturb := A * r 14 * (p.f00_Rebar + p.f22_Rebar)
  let f02_Imbar_Perturb := A * r 15 * (p.f00_Rebar + p.f22_Rebar)
  let f12_Rebar_Perturb := A * r 16 * (p.f11_Rebar + p.f22_Rebar)
  let f12_Imbar_Perturb := A * r 17 * (p.f11_Rebar + p.f22_Rebar)
  { p with
    f00_Re := (p.f00_Re + f00_Re_Perturb) /
      (1 + f00_Re_Perturb + f11_Re_Perturb + f22_Re_Perturb)
    f01_Re := p.f01_Re + f01_Re_Perturb
    f01_Im := p.f01_Im + f01_Im_Perturb
    f11_Re := (p.f11_Re + f11_Re_Perturb) /
      (1 + f00_Re_Perturb + f11_Re_Perturb + f22_Re_Perturb)
    f00_Rebar := (p.f00_Rebar + f00_Rebar_Perturb) /
      (1 + f00_Rebar_Perturb + f11_Rebar_Perturb + f22_Rebar_Perturb)
    f01_Rebar := p.f01_Rebar + f01_Rebar_Perturb
    f01_Imbar := p.f01_Imbar + f01_Imbar_Perturb
    f11_Rebar := (p.f11_Rebar + f11_Rebar_Perturb) /
      (1 + f00_Rebar_Perturb + f11_Rebar_Perturb + f22_Rebar_Perturb)
    f22_Re := (p.f22_Re + f22_Re_Perturb) /
      (1 + f00_Re_Perturb + f11_Re_Perturb + f22_Re_Perturb)
    f22_Rebar := (p.f22_Rebar + f22_Rebar_Perturb) /
      (1 + f00_Rebar_Perturb + f11_Rebar_Perturb + f22_Rebar_Perturb)
    f02_Re := p.f02_Re + f02_Re_Perturb
    f02_Im := p.f02_Im + f02_Im_Perturb
    f12_Re := p.f12_Re + f12_Re_Perturb
    f12_Im := p.f12_Im + f12_Im_Perturb
    f02_Rebar := p.f02_Rebar + f02_Rebar_Perturb
    f02_Imbar := p.f02_Imbar + f02_Imbar_Perturb
    f12_Rebar := p.f12_Rebar + f12_Rebar_Perturb
    f12_Imbar := p.f12_Imbar + f12_Imbar_Perturb }

/-- Source `PerturbParticlesLyapunov` over an ensemble (one tile): particle `i`
consumes the draws `rs i`. -/
noncomputable def PerturbParticlesLyapunov (A : ℝ) (rs : ℕ → Fin 18 → ℝ)
    (cur : List Particle) : List Particle :=
  cur.enum.map fun ip => perturbP A (rs ip.1) ip.2

/-- The matching test used by both Lyapunov comparison routines: exact
floating equality of integrated position, time, and spatial momentum. -/
def keyMatch (p1 p2 : Particle) : Prop :=
  p1.x = p2.x ∧ p1.y = p2.y ∧ p1.z = p2.z ∧ p1.time = p2.time ∧
  p1.pupx = p2.pupx ∧ p1.pupy = p2.pupy ∧ p1.pupz = p2.pupz

open scoped Classical in
/-- The inner search over the reference tile: first particle matching `p1`. -/
noncomputable def findMatch (p1 : Particle) : List Particle → Option Particle
  | [] => none
  | q :: qs => if keyMatch p1 q then some q else findMatch p1 qs

/-- The eighteen squared component differences accumulated for one matched
pair (lines 956-973). -/
noncomputable def sqDiff18 (p1 p2 : Particle) : ℝ :=
  (p1.f00_Re - p2.f00_Re) ^ 2 + (p1.f01_Re - p2.f01_Re) ^ 2 +
  (p1.f01_Im - p2.f01_Im) ^ 2 + (p1.f02_Re - p2.f02_Re) ^ 2 +
  (p1.f02_Im - p2.f02_Im) ^ 2 + (p1.f11_Re - p2.f11_Re) ^ 2 +
  (p1.f12_Re - p2.f12_Re) ^ 2 + (p1.f12_Im - p2.f12_Im) ^ 2 +
  (p1.f22_Re - p2.f22_Re) ^ 2 + (p1.f00_Rebar - p2.f00_Rebar) ^ 2 +
  (p1.f01_Rebar - p2.f01_Rebar) ^ 2 + (p1.f01_Imbar - p2.f01_Imbar) ^ 2 +
  (p1.f02_Rebar - p2.f02_Rebar) ^ 2 + (p1.f02_Imbar - p2.f02_Imbar) ^ 2 +
  (p1.f11_Rebar - p2.f11_Rebar) ^ 2 + (p1.f12_Rebar - p2.f12_Rebar) ^ 2 +
  (p1.f12_Imbar - p2.f12_Imbar) ^ 2 + (p1.f22_Rebar - p2.f22_Rebar) ^ 2

/-- Contribution of one current particle to `sum_particles`: the squared
differences against its first match, or nothing (a non-fatal
`error: particle not found` log) if no reference particle matches. -/
noncomputable def contribDiff (ref : List Particle) (p1 : Particle) : ℝ :=
  match findMatch p1 ref with
  | some p2 => sqDiff18 p1 p2
  | none => 0

noncomputable def sumSqDiff (cur ref : List Particle) : ℝ :=
  (cur.map (contribDiff ref)).sum

/-- Source `ComputeStateSpaceDifferenceLyapunov` for a single tile pair (the
cross-tile preamble reduces to the same inner search in that case):
`pow(sum_particles, 0.5)`. -/
noncomputable def ComputeStateSpaceDifferenceLyapunov (cur ref : List Particle) : ℝ :=
  Real.sqrt (sumSqDiff cur ref)

/-- Source `RenormalizePerturbationLyapunov` body for one matched pair: every
density-matrix component is reset to
`reference + A*(current - reference)/ss_vector_diff`; all other fields are
untouched. -/
noncomputable def renormP (A d : ℝ) (p1 p2 : Particle) : Particle :=
  { p1 with
    f00_Re := p2.f00_Re + A * (p1.f00_Re - p2.f00_Re) / d
    f01_Re := p2.f01_Re + A * (p1.f01_Re - p2.f01_Re) / d
    f01_Im := p2.f01_Im + A * (p1.f01_Im - p2.f01_Im) / d
    f02_Re := p2.f02_Re + A * (p1.f02_Re - p2.f02_Re) / d
    f02_Im := p2.f02_Im + A * (p1.f02_Im - p2.f02_Im) / d
    f11_Re := p2.f11_Re + A * (p1.f11_Re - p2.f11_Re) / d
    f12_Re := p2.f12_Re + A * (p1.f12_Re - p2.f12_Re) / d
    f12_Im := p2.f12_Im + A * (p1.f12_Im - p2.f12_Im) / d
    f22_Re := p2.f22_Re + A * (p1.f22_Re - p2.f22_Re) / d
    f00_Rebar := p2.f00_Rebar + A * (p1.f00_Rebar - p2.f00_Rebar) / d
    f01_Rebar := p2.f01_Rebar + A * (p1.f01_Rebar - p2.f01_Rebar) / d
    f01_Imbar := p2.f01_Imbar + A * (p1.f01_Imbar - p2.f01_Imbar) / d
    f02_Rebar := p2.f02_Rebar + A * (p1.f02_Rebar - p2.f02_Rebar) / d
    f02_Imbar := p2.f02_Imbar + A * (p1.f02_Imbar - p2.f02_Imbar) / d
    f11_Rebar := p2.f11_Rebar + A * (p1.f11_Rebar - p2.f11_Rebar) / d
    f12_Rebar := p2.f12_Rebar + A * (p1.f12_Rebar - p2.f12_Rebar) / d
    f12_Imbar := p2.f12_Imbar + A * (p1.f12_Imbar - p2.f12_Imbar) / d
    f22_Rebar := p2.f22_Rebar + A * (p1.f22_Rebar - p2.f22_Rebar) / d }

/-- Observable side effects of the embedded routines: `amrex::Print` log
lines versus `amrex::Error` fatal aborts. -/
inductive AmrexEvent where
  | printMsg : AmrexEvent
  | fatalError : AmrexEvent
deriving DecidableEq

open scoped Classical in
/-- The post-write trace checks: a non-fatal log line whenever a renormalized
diagonal sum leaves `[0.99, 1.01]`, for each species. -/
noncomputable def trazaEvents (q : Particle) : List AmrexEvent :=
  (if q.f00_Re + q.f11_Re + q.f22_Re < 0.99 ∨ 1.01 < q.f00_Re + q.f11_Re + q.f22_Re
    then [AmrexEvent.printMsg] else []) ++
  (if q.f00_Rebar + q.f11_Rebar + q.f22_Rebar < 0.99 ∨
      1.01 < q.f00_Rebar + q.f11_Rebar + q.f22_Rebar
    then [AmrexEvent.printMsg] else [])

/-- Result of `RenormalizePerturbationLyapunov`: the mutated current
ensemble, the (read-only) reference ensemble, and the emitted events. -/
structure RenormResult where
  current : List Particle
  reference : List Particle
  events : List AmrexEvent

open scoped Classical in
/-- Source `RenormalizePerturbationLyapunov` for a single tile pair.  The whole body
is guarded by `if (ss_vector_diff!=0.0)`; the `else` branch only prints
`error: ss_vector_diff=0, the renormalization of the perturbation was not
posible` (a non-fatal `amrex::Print`) and leaves both ensembles unchanged.
Unmatched particles are logged non-fatally and left unchanged as well. -/
noncomputable def RenormalizePerturbationLyapunov (A : ℝ) (cur ref : List Particle)
    (ss_vector_diff : ℝ) : RenormResult :=
  if ss_vector_diff ≠ 0 then
    { current := cur.map fun p1 =>
        match findMatch p1 ref with
        | some p2 => renormP A ss_vector_diff p1 p2
        | none => p1
      reference := ref
      events := cur.flatMap fun p1 =>
        match findMatch p1 ref with
        | some p2 => trazaEvents (renormP A ss_vector_diff p1 p2)
        | none => [AmrexEvent.printMsg] }
  else
    { current := cur, reference := ref, events := [AmrexEvent.printMsg] }

/-- Source `gaussian_profile` (Martin et al 2019); `erf` is `std::erf`, passed
explicitly since the special function lives outside the embedded slice. -/
noncomputable def gaussian_profile (erf : ℝ → ℝ) (sigma mu mu0 : ℝ) : ℝ :=
  2 * (1 / (sigma * Real.sqrt (Real.pi / 2) * erf (Real.sqrt 2 / sigma))) *
    Real.exp (-(mu - mu0) * (mu - mu0) / (2 * sigma * sigma))

/-- The flavor state and momentum written by recipes 6 and 7 for one sample
point (`NUM_FLAVORS==2` build). -/
structure St67Out where
  pupt : ℝ
  pupx : ℝ
  pupy : ℝ
  pupz : ℝ
  N : ℝ
  Nbar : ℝ
  f00_Re : ℝ
  f11_Re : ℝ
  f00_Rebar : ℝ
  f11_Rebar : ℝ
  f01_Re : ℝ
  f01_Im : ℝ
  f01_Rebar : ℝ
  f01_Imbar : ℝ

/-- The Fourier-mode loop `for(int a=-amax; a<=amax; a++)` of recipe 6. -/
def modeRange (amax : ℤ) : List ℤ :=
  (List.range (2 * amax + 1).toNat).map fun i => -amax + i

/-- Recipe 6's off-diagonal perturbation: the running `(f01_Re, f01_Im)`
accumulated over all nonzero modes, with `ka = 2*pi*a/Lz`,
`phase = ka*z + 2*pi*random_numbers[a + Nz/2]` and envelope
`B = amplitude/|a|`. -/
noncomputable def st6_f01 (amplitude Lz : ℝ) (Nz amax : ℤ) (randTable : ℤ → ℝ)
    (z : ℝ) : ℝ × ℝ :=
  (modeRange amax).foldl
    (fun (acc : ℝ × ℝ) (a : ℤ) =>
      if a = 0 then acc
      else
        (acc.1 + 0.5 * (amplitude / |(a : ℝ)|) *
          Real.cos (2 * Real.pi * a / Lz * z + 2 * Real.pi * randTable ((a + Nz / 2 : ℤ))),
         acc.2 + 0.5 * (amplitude / |(a : ℝ)|) *
          Real.sin (2 * Real.pi * a / Lz * z + 2 * Real.pi * randTable ((a + Nz / 2 : ℤ)))))
    (0, 0)

/-- Parameters read by simulation type 6. -/
structure St6Params where
  st6_nnue : ℝ
  st6_nnua : ℝ
  st6_sigma : ℝ
  st6_sigmabar : ℝ
  st6_mu0 : ℝ
  st6_mu0bar : ℝ
  st6_amplitude : ℝ
  Lz : ℝ

/-- Simulation type 6 body (lines 671-716) for one sample point.  `amax`
stands for the computed bound `parms->st6_amax * Nz/2` (the parameter's
declaration lies in a header outside the repository slice); `randTable` is
the broadcast random table. -/
noncomputable def recipe6 (erf : ℝ → ℝ) (P : St6Params) (scale_fac eV : ℝ)
    (u : ℝ × ℝ × ℝ) (Nz amax : ℤ) (randTable : ℤ → ℝ) (z : ℝ) : St67Out :=
  let pupt := 50 * 1e6 * eV
  let f01 := st6_f01 P.st6_amplitude P.Lz Nz amax randTable z
  { pupt := pupt
    pupx := u.1 * pupt
    pupy := u.2.1 * pupt
    pupz := u.2.2 * pupt
    N := P.st6_nnue * scale_fac * gaussian_profile erf P.st6_sigma u.2.2 P.st6_mu0
    Nbar := P.st6_nnua * scale_fac * gaussian_profile erf P.st6_sigmabar u.2.2 P.st6_mu0bar
    f00_Re := 1
    f11_Re := 0
    f00_Rebar := 1
    f11_Rebar := 0
    f01_Re := f01.1
    f01_Im := f01.2
    f01_Rebar := f01.1
    f01_Imbar := -f01.2 }

/-- Parameters read by simulation type 7. -/
structure St7Params where
  st7_nnue : ℝ
  st7_nnua : ℝ
  st7_sigma : ℝ
  st7_sigmabar : ℝ
  st7_mu0 : ℝ
  st7_mu0bar : ℝ
  st7_amplitude : ℝ
  st7_sigma_pert : ℝ
  Lz : ℝ

/-- Simulation type 7 body (lines 721-761) for one sample point: a single
localized Gaussian bump in `z` on the real part of the coherence. -/
noncomputable def recipe7 (erf : ℝ → ℝ) (P : St7Params) (scale_fac eV : ℝ)
    (u : ℝ × ℝ × ℝ) (z : ℝ) : St67Out :=
  let pupt := 50 * 1e6 * eV
  let zprime := z - P.Lz
  let P1 := P.st7_amplitude * Real.exp (-zprime * zprime /
    (2 * P.st7_sigma_pert * P.st7_sigma_pert))
  { pupt := pupt
    pupx := u.1 * pupt
    pupy := u.2.1 * pupt
    pupz := u.2.2 * pupt
    N := P.st7_nnue * scale_fac * gaussian_profile erf P.st7_sigma u.2.2 P.st7_mu0
    Nbar := P.st7_nnua * scale_fac * gaussian_profile erf P.st7_sigmabar u.2.2 P.st7_mu0bar
    f00_Re := 1
    f11_Re := 0
    f00_Rebar := 1
    f11_Rebar := 0
    f01_Re := P1 / 2
    f01_Im := 0
    f01_Rebar := P1 / 2
    f01_Imbar := -0 }

/-- Modelled from the spec's wording of the C3 claim (for comparison with the
code's `perturbP`): each diagonal entry scaled by `(1 + amplitude*rand)` and
the diagonal renormalized by the summed perturbed diagonal; each off-diagonal
additively perturbed by `amplitude*rand*(difference of the two coupled
diagonal entries)`.  Random draws are indexed as in `perturbP`. -/
noncomputable def perturbSpecC3 (A : ℝ) (r : Fin 18 → ℝ) (p : Particle) : Particle :=
  let D := p.f00_Re * (1 + A * r 0) + p.f11_Re * (1 + A * r 3) + p.f22_Re * (1 + A * r 8)
  let Dbar := p.f00_Rebar * (1 + A * r 4) + p.f11_Rebar * (1 + A * r 7) +
    p.f22_Rebar * (1 + A * r 9)
  { p with
    f00_Re := p.f00_Re * (1 + A * r 0) / D
    f11_Re := p.f11_Re * (1 + A * r 3) / D
    f22_Re := p.f22_Re * (1 + A * r 8) / D
    f00_Rebar := p.f00_Rebar * (1 + A * r 4) / Dbar
    f11_Rebar := p.f11_Rebar * (1 + A * r 7) / Dbar
    f22_Rebar := p.f22_Rebar * (1 + A * r 9) / Dbar
    f01_Re := p.f01_Re + A * r 1 * (p.f00_Re - p.f11_Re)
    f01_Im := p.f01_Im + A * r 2 * (p.f00_Re - p.f11_Re)
    f01_Rebar := p.f01_Rebar + A * r 5 * (p.f00_Rebar - p.f11_Rebar)
    f01_Imbar := p.f01_Imbar + A * r 6 * (p.f00_Rebar - p.f11_Rebar)
    f02_Re := p.f02_Re + A * r 10 * (p.f00_Re - p.f22_Re)
    f02_Im := p.f02_Im + A * r 11 * (p.f00_Re - p.f22_Re)
    f12_Re := p.f12_Re + A * r 12 * (p.f11_Re - p.f22_Re)
    f12_Im := p.f12_Im + A * r 13 * (p.f11_Re - p.f22_Re)
    f02_Rebar := p.f02_Rebar + A * r 14 * (p.f00_Rebar - p.f22_Rebar)
    f02_Imbar := p.f02_Imbar + A * r 15 * (p.f00_Rebar - p.f22_Rebar)
    f12_Rebar := p.f12_Rebar + A * r 16 * (p.f11_Rebar - p.f22_Rebar)
    f12_Imbar := p.f12_Imbar + A * r 17 * (p.f11_Rebar - p.f22_Rebar) }

/-- A particle with every field zero. -/
noncomputable def pZero : Particle :=
  { id := 0, cpu := 0, pos0 := 0, pos1 := 0, pos2 := 0,
    x := 0, y := 0, z := 0, time := 0,
    pupt := 0, pupx := 0, pupy := 0, pupz := 0, N := 0, Nbar := 0,
    f00_Re := 0, f01_Re := 0, f01_Im := 0, f02_Re := 0, f02_Im := 0,
    f11_Re := 0, f12_Re := 0, f12_Im := 0, f22_Re := 0,
    f00_Rebar := 0, f01_Rebar := 0, f01_Imbar := 0, f02_Rebar := 0, f02_Imbar := 0,
    f11_Rebar := 0, f12_Rebar := 0, f12_Imbar := 0, f22_Rebar := 0 }

/-- Concrete trace-1 particle for the C3 counterexample and witness. -/
noncomputable def pC3 : Particle :=
  { pZero with
    f00_Re := 1/2
    f11_Re := 1/4
    f22_Re := 1/4
    f00_Rebar := 1/2
    f11_Rebar := 1/4
    f22_Rebar := 1/4 }

/-- All eighteen draws set to one half. -/
noncomputable def rC3 : Fin 18 → ℝ := fun _ => 1/2

/-- The particle of the C2 witness: `pZero` with a unit `f00_Re` deviation. -/
noncomputable def pOne : Particle := { pZero with f00_Re := 1 }

/-- The fields C10 asserts are left unchanged: identity, position, integrated
position, time, four-momentum, and the number weights. -/
def nonflavorEq (q p : Particle) : Prop :=
  q.id = p.id ∧ q.pos0 = p.pos0 ∧ q.pos1 = p.pos1 ∧ q.pos2 = p.pos2 ∧
  q.x = p.x ∧ q.y = p.y ∧ q.z = p.z ∧ q.time = p.time ∧
  q.pupt = p.pupt ∧ q.pupx = p.pupx ∧ q.pupy = p.pupy ∧ q.pupz = p.pupz ∧
  q.N = p.N ∧ q.Nbar = p.Nbar


/-! ### Proofs for claim C1 (EnsembleBuilder count / prefix-sum / write passes) -/

lemma bumpAt_length (l : List ℕ) (i d : ℕ) : (bumpAt l i d).length = l.length := by
  induction l generalizing i with
  | nil => simp [bumpAt]
  | cons x xs ih =>
    cases i with
    | zero => simp [bumpAt]
    | succ n => simp [bumpAt, ih]

lemma countsOf_length (c : BuildCfg) : (countsOf c).length = c.numPts := by
  rw [countsOf]
  generalize boxCells c = cells
  have base : ∀ (cells : List (ℤ × ℤ × ℤ)) (l : List ℕ),
      (cells.foldl (fun l cell =>
        (List.range c.nlocs).foldl
          (fun l2 i_part =>
            if insideDomain c (cellPos c cell.1 cell.2.1 cell.2.2 i_part) then
              bumpAt l2 (cellid c cell.1 cell.2.1 cell.2.2) c.ndirs
            else l2) l) l).length = l.length := by
    intro cells
    induction cells with
    | nil => intro l; simp
    | cons hd tl ih =>
      intro l
      rw [List.foldl_cons, ih]
      generalize (List.range c.nlocs) = parts
      induction parts generalizing l with
      | nil => simp
      | cons p ps ihp =>
        rw [List.foldl_cons]
        rcases h : insideDomain c (cellPos c hd.1 hd.2.1 hd.2.2 p) with _ | _
        · simp only [h, Bool.false_eq_true, if_false]
          exact ihp l
        · simp only [h, if_true]
          rw [ihp, bumpAt_length]
  rw [base, List.length_replicate]

lemma inclScan_getLastD (acc : ℕ) (l : List ℕ) (h : l ≠ []) :
    ((inclScan acc l).getLast?).getD 0 = acc + l.sum := by
  induction l generalizing acc with
  | nil => exact absurd rfl h
  | cons x xs ih =>
    rw [inclScan]
    cases xs with
    | nil => simp [inclScan]
    | cons y ys =>
      rw [show inclScan (acc + x) (y :: ys) = (acc + x + y) :: inclScan (acc + x + y) ys from rfl,
        List.getLast?_cons_cons,
        show (acc + x + y) :: inclScan (acc + x + y) ys = inclScan (acc + x) (y :: ys) from rfl,
        ih (acc + x) (by simp)]
      simp [add_assoc]

lemma counts_sum_eq_numToAdd (c : BuildCfg) (h : 0 < c.numPts) :
    (countsOf c).sum = numToAdd c := by
  have hne : countsOf c ≠ [] := by
    intro he
    rw [← countsOf_length c, he] at h
    simp at h
  rw [numToAdd, offsetsOf, inclScan_getLastD 0 _ hne, Nat.zero_add]

lemma exCfg_box : boxCells exCfg = [(0,0,0), (1,0,0)] := rfl

lemma exCfg_in000 : insideDomain exCfg (cellPos exCfg 0 0 0 0) = true := by
  norm_num [insideDomain, cellPos, get_position_unit_cell, exCfg]

lemma exCfg_in001 : insideDomain exCfg (cellPos exCfg 0 0 0 1) = true := by
  norm_num [insideDomain, cellPos, get_position_unit_cell, exCfg]

lemma exCfg_in100 : insideDomain exCfg (cellPos exCfg 1 0 0 0) = true := by
  norm_num [insideDomain, cellPos, get_position_unit_cell, exCfg]

lemma exCfg_in101 : insideDomain exCfg (cellPos exCfg 1 0 0 1) = false := by
  norm_num [insideDomain, cellPos, get_position_unit_cell, exCfg]

lemma exCfg_counts : countsOf exCfg = [2, 1] := by
  rw [countsOf, exCfg_box]
  rw [show List.range exCfg.nlocs = [0, 1] from rfl,
      show List.replicate exCfg.numPts 0 = [0, 0] from rfl]
  simp only [List.foldl_cons, List.foldl_nil]
  rw [exCfg_in000, exCfg_in001, exCfg_in100, exCfg_in101]
  rfl

lemma exCfg_offsets : offsetsOf exCfg = [2, 3] := by
  rw [offsetsOf, exCfg_counts]
  rfl

lemma exCfg_writes : writesPidx exCfg = [0, 1, 1] := by
  rw [writesPidx, exCfg_box]
  rw [show List.range exCfg.nlocs = [0, 1] from rfl]
  simp only [List.flatMap_cons, List.flatMap_nil]
  rw [exCfg_in000, exCfg_in001, exCfg_in100, exCfg_in101]
  rw [exCfg_offsets]
  rfl

lemma cube_box (k : ℕ) : boxCells (cubeCfg k) =
    [(0,0,0), (0,0,1), (0,1,0), (0,1,1), (1,0,0), (1,0,1), (1,1,0), (1,1,1)] := rfl

lemma cube_inside (k : ℕ) (i j l : ℤ) (hi : i = 0 ∨ i = 1) (hj : j = 0 ∨ j = 1)
    (hl : l = 0 ∨ l = 1) :
    insideDomain (cubeCfg k) (cellPos (cubeCfg k) i j l 0) = true := by
  rcases hi with rfl | rfl <;> rcases hj with rfl | rfl <;> rcases hl with rfl | rfl <;>
    norm_num [insideDomain, cellPos, get_position_unit_cell, cubeCfg]

lemma cube_counts (k : ℕ) : countsOf (cubeCfg k) = [k, k, k, k, k, k, k, k] := by
  rw [countsOf, cube_box]
  rw [show List.range (cubeCfg k).nlocs = [0] from rfl,
      show List.replicate (cubeCfg k).numPts 0 = [0, 0, 0, 0, 0, 0, 0, 0] from rfl]
  simp only [List.foldl_cons, List.foldl_nil]
  rw [cube_inside k 0 0 0 (by norm_num) (by norm_num) (by norm_num)]
  rw [cube_inside k 0 0 1 (by norm_num) (by norm_num) (by norm_num)]
  rw [cube_inside k 0 1 0 (by norm_num) (by norm_num) (by norm_num)]
  rw [cube_inside k 0 1 1 (by norm_num) (by norm_num) (by norm_num)]
  rw [cube_inside k 1 0 0 (by norm_num) (by norm_num) (by norm_num)]
  rw [cube_inside k 1 0 1 (by norm_num) (by norm_num) (by norm_num)]
  rw [cube_inside k 1 1 0 (by norm_num) (by norm_num) (by norm_num)]
  rw [cube_inside k 1 1 1 (by norm_num) (by norm_num) (by norm_num)]
  simp only [if_true]
  rw [show cellid (cubeCfg k) 0 0 0 = 0 from rfl, show cellid (cubeCfg k) 0 0 1 = 1 from rfl,
      show cellid (cubeCfg k) 0 1 0 = 2 from rfl, show cellid (cubeCfg k) 0 1 1 = 3 from rfl,
      show cellid (cubeCfg k) 1 0 0 = 4 from rfl, show cellid (cubeCfg k) 1 0 1 = 5 from rfl,
      show cellid (cubeCfg k) 1 1 0 = 6 from rfl, show cellid (cubeCfg k) 1 1 1 = 7 from rfl]
  simp [bumpAt, cubeCfg]

lemma cube_offsets (k : ℕ) : offsetsOf (cubeCfg k) =
    [k, 2*k, 3*k, 4*k, 5*k, 6*k, 7*k, 8*k] := by
  rw [offsetsOf, cube_counts]
  simp [inclScan]
  omega

lemma map_shift_range (a b k : ℕ) (h : a = b) :
    (List.range k).map (fun d => a + d) = List.range' b k := by
  rw [h]
  exact (List.range'_eq_map_range b k).symm

lemma flat_range (m k : ℕ) :
    (List.range m).flatMap (fun b => List.range' (b * k) k) = List.range' 0 (m * k) := by
  induction m with
  | zero => simp
  | succ m ih =>
    rw [List.range_succ, List.flatMap_append, ih]
    simp only [List.flatMap_cons, List.flatMap_nil, List.append_nil]
    have := List.range'_append 0 (m * k) k 1
    simp only [Nat.one_mul, Nat.zero_add] at this
    rw [this]
    ring_nf

lemma cube_writes (k : ℕ) : writesPidx (cubeCfg k) = List.range (8 * k) := by
  rw [writesPidx, cube_box]
  rw [show List.range (cubeCfg k).nlocs = [0] from rfl]
  simp only [List.flatMap_cons, List.flatMap_nil]
  rw [cube_inside k 0 0 0 (by norm_num) (by norm_num) (by norm_num)]
  rw [cube_inside k 0 0 1 (by norm_num) (by norm_num) (by norm_num)]
  rw [cube_inside k 0 1 0 (by norm_num) (by norm_num) (by norm_num)]
  rw [cube_inside k 0 1 1 (by norm_num) (by norm_num) (by norm_num)]
  rw [cube_inside k 1 0 0 (by norm_num) (by norm_num) (by norm_num)]
  rw [cube_inside k 1 0 1 (by norm_num) (by norm_num) (by norm_num)]
  rw [cube_inside k 1 1 0 (by norm_num) (by norm_num) (by norm_num)]
  rw [cube_inside k 1 1 1 (by norm_num) (by norm_num) (by norm_num)]
  simp only [if_true]
  rw [show cellid (cubeCfg k) 0 0 0 = 0 from rfl, show cellid (cubeCfg k) 0 0 1 = 1 from rfl,
      show cellid (cubeCfg k) 0 1 0 = 2 from rfl, show cellid (cubeCfg k) 0 1 1 = 3 from rfl,
      show cellid (cubeCfg k) 1 0 0 = 4 from rfl, show cellid (cubeCfg k) 1 0 1 = 5 from rfl,
      show cellid (cubeCfg k) 1 1 0 = 6 from rfl, show cellid (cubeCfg k) 1 1 1 = 7 from rfl]
  rw [cube_offsets]
  simp only [nthD, show (cubeCfg k).ndirs = k from rfl]
  simp only [List.append_nil]
  rw [map_shift_range (k - k + 0 * k) 0 k (by omega),
      map_shift_range (2 * k - k + 0 * k) (1 * k) k (by omega),
      map_shift_range (3 * k - k + 0 * k) (2 * k) k (by omega),
      map_shift_range (4 * k - k + 0 * k) (3 * k) k (by omega),
      map_shift_range (5 * k - k + 0 * k) (4 * k) k (by omega),
      map_shift_range (6 * k - k + 0 * k) (5 * k) k (by omega),
      map_shift_range (7 * k - k + 0 * k) (6 * k) k (by omega),
      map_shift_range (8 * k - k + 0 * k) (7 * k) k (by omega)]
  rw [List.range_eq_range', ← flat_range 8 k]
  rw [show List.range 8 = [0, 1, 2, 3, 4, 5, 6, 7] from rfl]
  simp only [List.flatMap_cons, List.flatMap_nil, List.append_nil]
  norm_num

/-- Claim C1, counterexample: on the tile `exCfg` the per-cell pending counts
are non-uniform (`[2,1]`), the prefix-sum total is 3, and the write pass
(whose slot formula is `poffset[cellid] - poffset[0] + i_loc*ndirs + i_dir`
with an inclusive scan) assigns the id `new_pid + 1` to two distinct sample
points while the id `new_pid + 2` is never used — refuting "no two points
receiving the same id and no id in that range unused". -/
theorem claim1_counterexample :
    numToAdd exCfg = 3 ∧ writeIds exCfg 100 = [100, 101, 101] ∧
      ¬ (writeIds exCfg 100).Nodup := by
  refine ⟨?_, ?_, ?_⟩
  · rw [numToAdd, exCfg_offsets]
    rfl
  · rw [writeIds, exCfg_writes]
    rfl
  · rw [writeIds, exCfg_writes]
    decide

/-- Claim C1, amended: for every tile, the sum over all cells of the pending
counts accumulated by the count pass equals the final inclusive-prefix-sum
value `num_to_add`; and in the uniform-count configuration the claim singles
out (a 2x2x2 cell grid, one lattice point per cell, a direction set of size
`k`, with all lattice positions inside the domain bounds) the write pass
creates exactly `8k` sample points whose ids are exactly
`new_pid, new_pid+1, ..., new_pid+8k-1`, pairwise distinct.  (When per-cell
counts are non-uniform the id assignment can collide, per the
counterexample.) -/
theorem claim1_amended :
    (∀ c : BuildCfg, 0 < c.numPts → (countsOf c).sum = numToAdd c) ∧
    (∀ k new_pid : ℕ,
      writeIds (cubeCfg k) new_pid = (List.range (8 * k)).map (fun p => new_pid + p) ∧
      (writeIds (cubeCfg k) new_pid).length = 8 * k ∧
      (writeIds (cubeCfg k) new_pid).Nodup) := by
  refine ⟨counts_sum_eq_numToAdd, fun k new_pid => ?_⟩
  have h : writeIds (cubeCfg k) new_pid = (List.range (8 * k)).map (fun p => new_pid + p) := by
    rw [writeIds, cube_writes]
  refine ⟨h, ?_, ?_⟩
  · rw [h, List.length_map, List.length_range]
  · rw [h]
    exact (List.nodup_range (8 * k)).map (fun a b => by omega)

/-- Claim C1, witness: the amended theorem applied to the concrete tile
`exCfg`, discharging its hypothesis `0 < numPts`. -/
theorem claim1_witness : 0 < exCfg.numPts ∧ (countsOf exCfg).sum = numToAdd exCfg :=
  ⟨by decide, claim1_amended.1 exCfg (by decide)⟩


/-! ### Proofs for claims C4 and C8 (direction-set geometry) -/

lemma list_range_sum {M : Type} [AddCommMonoid M] (f : ℕ → M) (n : ℕ) :
    ((List.range n).map f).sum = ∑ i ∈ Finset.range n, f i := by
  induction n with
  | zero => simp
  | succ n ih => rw [List.range_succ, List.map_append, List.sum_append,
      Finset.sum_range_succ, ih]; simp

lemma exp_ring_sum (n : ℕ) (hn : 2 ≤ n) (phi0 : ℝ) :
    ∑ i ∈ Finset.range n, Complex.exp ((phi0 + i * (2 * Real.pi / n)) * Complex.I) = 0 := by
  have hn0 : (n : ℝ) ≠ 0 := by positivity
  have hw : ∀ i : ℕ, Complex.exp ((phi0 + i * (2 * Real.pi / n)) * Complex.I)
      = Complex.exp (phi0 * Complex.I) *
        (Complex.exp ((2 * Real.pi / n) * Complex.I)) ^ i := by
    intro i
    rw [← Complex.exp_nat_mul, ← Complex.exp_add]
    congr 1
    ring
  simp only [hw]
  rw [← Finset.mul_sum]
  have hnC : (n : ℂ) ≠ 0 := by exact_mod_cast hn0
  have hne : Complex.exp ((2 * Real.pi / n) * Complex.I) ≠ 1 := by
    rw [Ne, Complex.exp_eq_one_iff]
    rintro ⟨k, hk⟩
    have h2 : (2 * (Real.pi : ℂ) / n) * Complex.I = ((k : ℂ) * (2 * Real.pi)) * Complex.I := by
      rw [hk]; ring
    have h3 := mul_right_cancel₀ Complex.I_ne_zero h2
    have hr : 2 * Real.pi / (n : ℝ) = (k : ℝ) * (2 * Real.pi) := by exact_mod_cast h3
    have hpos : 0 < 2 * Real.pi / (n : ℝ) := by positivity
    have hlt : 2 * Real.pi / (n : ℝ) < 2 * Real.pi := by
      rw [div_lt_iff₀ (by positivity)]
      nlinarith [Real.pi_pos, show (2:ℝ) ≤ n from by exact_mod_cast hn]
    rcases lt_trichotomy k 0 with h | h | h
    · nlinarith [Real.pi_pos, show (k:ℝ) ≤ -1 from by exact_mod_cast Int.le_sub_one_of_lt h]
    · rw [h] at hr; push_cast at hr; nlinarith
    · nlinarith [Real.pi_pos, show (1:ℝ) ≤ (k:ℝ) from by exact_mod_cast h]
  have hpow : (Complex.exp ((2 * Real.pi / n) * Complex.I)) ^ n = 1 := by
    rw [← Complex.exp_nat_mul]
    rw [show (n : ℂ) * ((2 * Real.pi / n) * Complex.I)
        = ((n : ℂ) / (n : ℂ)) * (2 * Real.pi * Complex.I) by ring,
      div_self hnC, one_mul]
    exact Complex.exp_two_pi_mul_I
  rw [geom_sum_eq hne, hpow]
  simp

lemma exp_arg_cast (n i : ℕ) (phi0 : ℝ) :
    ((phi0 : ℂ) + (i : ℂ) * (2 * (Real.pi : ℂ) / (n : ℂ))) * Complex.I
      = ((phi0 + i * (2 * Real.pi / n) : ℝ) : ℂ) * Complex.I := by
  push_cast
  ring

lemma cos_ring_sum (n : ℕ) (hn : 2 ≤ n) (phi0 : ℝ) :
    ∑ i ∈ Finset.range n, Real.cos (phi0 + i * (2 * Real.pi / n)) = 0 := by
  have h := exp_ring_sum n hn phi0
  have h2 := congrArg Complex.re h
  rw [Complex.re_sum] at h2
  simp only [exp_arg_cast, Complex.exp_ofReal_mul_I_re] at h2
  simpa using h2

lemma sin_ring_sum (n : ℕ) (hn : 2 ≤ n) (phi0 : ℝ) :
    ∑ i ∈ Finset.range n, Real.sin (phi0 + i * (2 * Real.pi / n)) = 0 := by
  have h := exp_ring_sum n hn phi0
  have h2 := congrArg Complex.im h
  rw [Complex.im_sum] at h2
  simp only [exp_arg_cast, Complex.exp_ofReal_mul_I_im] at h2
  simpa using h2

lemma ringPoints_sum_pos (θ phi0 dphi : ℝ) (nphi : ℕ) (hθ : 0 < θ) :
    (ringPoints θ phi0 dphi nphi).sum = 0 := by
  rw [ringPoints]
  induction (List.range nphi) with
  | nil => simp
  | cons i l ih =>
    rw [List.flatMap_cons, List.sum_append, ih, add_zero, if_pos hθ]
    show ((_ : ℝ × ℝ × ℝ) + (_ + 0)) = 0
    rw [add_zero]
    ext <;> simp

lemma prod3_sum_mk (l : List ℕ) (f g h : ℕ → ℝ) :
    (l.map (fun i => ((f i, g i, h i) : ℝ × ℝ × ℝ))).sum
      = ((l.map f).sum, (l.map g).sum, (l.map h).sum) := by
  induction l with
  | nil => simp [Prod.ext_iff]
  | cons x xs ih => simp [ih, Prod.ext_iff]

lemma ringPoints_sum_equator (n : ℕ) (hn : 2 ≤ n) (phi0 : ℝ) :
    (ringPoints 0 phi0 (2 * Real.pi / n) n).sum = 0 := by
  rw [ringPoints]
  have hbody : ∀ iphi : ℕ,
      ((Real.cos 0 * Real.cos (phi0 + iphi * (2 * Real.pi / n)),
        Real.cos 0 * Real.sin (phi0 + iphi * (2 * Real.pi / n)),
        Real.sin 0) ::
        (if (0:ℝ) < 0 then
          [(-(Real.cos 0 * Real.cos (phi0 + iphi * (2 * Real.pi / n))),
            -(Real.cos 0 * Real.sin (phi0 + iphi * (2 * Real.pi / n))),
            -(Real.sin 0))]
        else []) : List (ℝ × ℝ × ℝ))
      = [(Real.cos (phi0 + iphi * (2 * Real.pi / n)),
          Real.sin (phi0 + iphi * (2 * Real.pi / n)), 0)] := by
    intro iphi
    rw [if_neg (lt_irrefl 0)]
    simp [Real.cos_zero, Real.sin_zero]
  simp only [hbody]
  rw [← List.map_eq_bind, prod3_sum_mk, list_range_sum, list_range_sum, list_range_sum,
    cos_ring_sum n hn phi0, sin_ring_sum n hn phi0]
  simp [Prod.ext_iff]

lemma thetaUsed_nonneg (n : ℕ) (θ : ℝ) (hθ : 0 ≤ θ) : 0 ≤ thetaUsed n θ := by
  rw [thetaUsed]
  split
  · positivity
  · exact hθ

lemma dthetaOf_nonneg (n : ℕ) : 0 ≤ dthetaOf n := by
  rw [dthetaOf]
  positivity

lemma sphereAux_sum (n : ℕ) (hn : 1 ≤ n) :
    ∀ (fuel : ℕ) (θ phi0 : ℝ), 0 ≤ θ → (sphereAux n fuel θ phi0).sum = 0 := by
  intro fuel
  induction fuel with
  | zero => intro θ phi0 _; rw [sphereAux]; rfl
  | succ fuel ih =>
    intro θ phi0 hθ
    rw [sphereAux]
    split
    · rw [List.sum_append,
        ih (thetaUsed n θ + dthetaOf n) (phi0 + dphiOf n θ / 2)
          (add_nonneg (thetaUsed_nonneg n θ hθ) (dthetaOf_nonneg n)), add_zero]
      by_cases h1 : nphiOf n θ = 1
      · rw [thetaUsed, if_pos h1]
        exact ringPoints_sum_pos _ _ _ _ (by positivity)
      · rw [thetaUsed, if_neg h1]
        by_cases h0 : θ = 0
        · subst h0
          have hn2 : 2 ≤ n := by
            rcases Nat.lt_or_ge n 2 with h | h
            · interval_cases n
              exact absurd (by simp [nphiOf]) h1
            · exact h
          have hnphi : nphiOf n 0 = n := by simp [nphiOf]
          rw [hnphi, dphiOf, hnphi]
          exact ringPoints_sum_equator n hn2 phi0
        · exact ringPoints_sum_pos _ _ _ _ (lt_of_le_of_ne hθ (Ne.symm h0))
    · rfl

/-- Claim C8: for every `n > 0` the vector sum of all direction vectors
returned by `uniform_sphere_xyz n` is the zero vector, in exact real
arithmetic: points with `theta > 0` are emitted in exactly opposing pairs,
and the equator ring is a full set of `n`-th roots of unity. -/
theorem claim8_sphere_sum_zero (n : ℕ) (hn : 0 < n) :
    (uniform_sphere_xyz n).sum = 0 := by
  rw [uniform_sphere_xyz]
  exact sphereAux_sum n hn (n + 1) 0 0 le_rfl

/-- Claim C8, witness: the theorem applied at `n = 3`. -/
theorem claim8_witness : (uniform_sphere_xyz 3).sum = 0 :=
  claim8_sphere_sum_zero 3 (by norm_num)

lemma ringPoints_norm (θ phi0 dphi : ℝ) (nphi : ℕ) :
    ∀ v ∈ ringPoints θ phi0 dphi nphi, v.1 ^ 2 + v.2.1 ^ 2 + v.2.2 ^ 2 = 1 := by
  intro v hv
  rw [ringPoints] at hv
  rcases List.mem_flatMap.1 hv with ⟨i, _, hv⟩
  have key : ∀ x : ℝ, (Real.cos θ * Real.cos x) ^ 2 + (Real.cos θ * Real.sin x) ^ 2
      + Real.sin θ ^ 2 = 1 := by
    intro x
    nlinarith [Real.sin_sq_add_cos_sq θ, Real.sin_sq_add_cos_sq x]
  rcases List.mem_cons.1 hv with rfl | hv
  · exact key _
  · split at hv
    · rcases List.mem_singleton.1 hv with rfl
      have := key (phi0 + i * dphi)
      dsimp only
      nlinarith [this]
    · exact absurd hv (List.not_mem_nil v)

lemma ringPoints_antipodal (θ phi0 dphi : ℝ) (nphi : ℕ) (hθ : 0 ≤ θ) :
    ∀ v ∈ ringPoints θ phi0 dphi nphi, v.2.2 ≠ 0 →
      (-v.1, -v.2.1, -v.2.2) ∈ ringPoints θ phi0 dphi nphi := by
  intro v hv hz
  rw [ringPoints] at hv ⊢
  rcases List.mem_flatMap.1 hv with ⟨i, hi, hv⟩
  have hpos : 0 < θ := by
    rcases lt_or_eq_of_le hθ with h | h
    · exact h
    · exfalso
      apply hz
      rw [← h] at hv
      rcases List.mem_cons.1 hv with rfl | hv2
      · simp
      · rw [if_neg (lt_irrefl (0:ℝ))] at hv2
        exact absurd hv2 (List.not_mem_nil v)
  rcases List.mem_cons.1 hv with rfl | hv2
  · exact List.mem_flatMap.2 ⟨i, hi, by
      rw [if_pos hpos]
      exact List.mem_cons.2 (Or.inr (List.mem_singleton.2 rfl))⟩
  · rw [if_pos hpos] at hv2
    rcases List.mem_singleton.1 hv2 with rfl
    exact List.mem_flatMap.2 ⟨i, hi, by
      rw [if_pos hpos]
      exact List.mem_cons.2 (Or.inl (by simp))⟩

lemma sphereAux_norm (n : ℕ) :
    ∀ (fuel : ℕ) (θ phi0 : ℝ), ∀ v ∈ sphereAux n fuel θ phi0,
      v.1 ^ 2 + v.2.1 ^ 2 + v.2.2 ^ 2 = 1 := by
  intro fuel
  induction fuel with
  | zero => intro θ phi0 v hv; rw [sphereAux] at hv; exact absurd hv (List.not_mem_nil v)
  | succ fuel ih =>
    intro θ phi0 v hv
    rw [sphereAux] at hv
    split at hv
    · rcases List.mem_append.1 hv with h | h
      · exact ringPoints_norm _ _ _ _ v h
      · exact ih _ _ v h
    · exact absurd hv (List.not_mem_nil v)

lemma sphereAux_antipodal (n : ℕ) :
    ∀ (fuel : ℕ) (θ phi0 : ℝ), 0 ≤ θ → ∀ v ∈ sphereAux n fuel θ phi0, v.2.2 ≠ 0 →
      (-v.1, -v.2.1, -v.2.2) ∈ sphereAux n fuel θ phi0 := by
  intro fuel
  induction fuel with
  | zero => intro θ phi0 _ v hv; rw [sphereAux] at hv; exact absurd hv (List.not_mem_nil v)
  | succ fuel ih =>
    intro θ phi0 hθ v hv hz
    rw [sphereAux] at hv ⊢
    by_cases hg : θ < Real.pi / 2
    · rw [if_pos hg] at hv ⊢
      rcases List.mem_append.1 hv with h | h
      · exact List.mem_append.2 (Or.inl
          (ringPoints_antipodal _ _ _ _ (thetaUsed_nonneg n θ hθ) v h hz))
      · exact List.mem_append.2 (Or.inr
          (ih _ _ (add_nonneg (thetaUsed_nonneg n θ hθ) (dthetaOf_nonneg n)) v h hz))
    · rw [if_neg hg] at hv
      exact absurd hv (List.not_mem_nil v)

/-- Claim C4, amended: for every `n > 0`, every vector returned by
`uniform_sphere_xyz n` has unit Euclidean length, and every returned vector
with nonzero z-component (every vector off the equator ring, which includes
the pole ring) has its exact negation in the returned set.  The original
claim's antipodal closure fails only on the equator ring (z = 0) when `n` is
odd, per the counterexample at `n = 3`. -/
theorem claim4_amended (n : ℕ) (hn : 0 < n) :
    (∀ v ∈ uniform_sphere_xyz n, v.1 ^ 2 + v.2.1 ^ 2 + v.2.2 ^ 2 = 1) ∧
    (∀ v ∈ uniform_sphere_xyz n, v.2.2 ≠ 0 →
      (-v.1, -v.2.1, -v.2.2) ∈ uniform_sphere_xyz n) := by
  refine ⟨fun v hv => sphereAux_norm n (n + 1) 0 0 v hv,
    fun v hv hz => sphereAux_antipodal n (n + 1) 0 0 le_rfl v hv hz⟩

lemma sqrt3_ge : (3:ℝ)/2 ≤ Real.sqrt 3 := by
  have h3 : Real.sqrt 3 ^ 2 = 3 := Real.sq_sqrt (by norm_num)
  nlinarith [Real.sqrt_nonneg 3]

lemma usz3_guard : ¬ (0 + Real.pi * Real.sqrt 3 / 3 < Real.pi / 2) := by
  push_neg
  rw [zero_add]
  have := Real.pi_pos
  nlinarith [sqrt3_ge]

lemma cos_2pi3 : Real.cos (2 * Real.pi / 3) = -(1/2) := by
  rw [show 2 * Real.pi / 3 = Real.pi - Real.pi / 3 by ring, Real.cos_pi_sub,
    Real.cos_pi_div_three]

lemma sin_2pi3 : Real.sin (2 * Real.pi / 3) = Real.sqrt 3 / 2 := by
  rw [show 2 * Real.pi / 3 = Real.pi - Real.pi / 3 by ring, Real.sin_pi_sub,
    Real.sin_pi_div_three]

lemma cos_4pi3 : Real.cos (2 * (2 * Real.pi / 3)) = -(1/2) := by
  rw [show 2 * (2 * Real.pi / 3) = Real.pi - -(Real.pi / 3) by ring, Real.cos_pi_sub,
    Real.cos_neg, Real.cos_pi_div_three]

lemma sin_4pi3 : Real.sin (2 * (2 * Real.pi / 3)) = -(Real.sqrt 3 / 2) := by
  rw [show 2 * (2 * Real.pi / 3) = Real.pi - -(Real.pi / 3) by ring, Real.sin_pi_sub,
    Real.sin_neg, Real.sin_pi_div_three]

lemma usz3 : uniform_sphere_xyz 3 =
    [(1, 0, 0), (-(1/2), Real.sqrt 3 / 2, 0), (-(1/2), -(Real.sqrt 3 / 2), 0)] := by
  rw [uniform_sphere_xyz]
  rw [show (3:ℕ) + 1 = 4 from rfl]
  rw [show sphereAux 3 4 0 0 =
      (if (0:ℝ) < Real.pi / 2 then
        ringPoints (thetaUsed 3 0) 0 (dphiOf 3 0) (nphiOf 3 0) ++
          sphereAux 3 3 (thetaUsed 3 0 + dthetaOf 3) (0 + dphiOf 3 0 / 2)
      else []) from rfl]
  rw [if_pos (by positivity : (0:ℝ) < Real.pi / 2)]
  have hnphi : nphiOf 3 0 = 3 := by simp [nphiOf]
  have hth : thetaUsed 3 0 = 0 := by simp [thetaUsed, hnphi]
  have hdphi : dphiOf 3 0 = 2 * Real.pi / 3 := by
    rw [dphiOf, hnphi]
    norm_num
  rw [hnphi, hth, hdphi, dthetaOf, show ((3:ℕ):ℝ) = 3 from by norm_num]
  rw [show sphereAux 3 3 (0 + Real.pi * Real.sqrt 3 / 3) (0 + 2 * Real.pi / 3 / 2) =
      (if (0 + Real.pi * Real.sqrt 3 / 3 < Real.pi / 2) then
        ringPoints (thetaUsed 3 (0 + Real.pi * Real.sqrt 3 / 3)) (0 + 2 * Real.pi / 3 / 2)
          (dphiOf 3 (0 + Real.pi * Real.sqrt 3 / 3)) (nphiOf 3 (0 + Real.pi * Real.sqrt 3 / 3)) ++
          sphereAux 3 2 _ _
      else []) from rfl]
  rw [if_neg usz3_guard, List.append_nil]
  rw [ringPoints]
  rw [show List.range 3 = [0, 1, 2] from rfl]
  simp only [List.flatMap_cons, List.flatMap_nil, if_neg (lt_irrefl (0:ℝ)), List.append_nil,
    List.cons_append, List.nil_append]
  push_cast
  rw [show (0:ℝ) + 0 * (2 * Real.pi / 3) = 0 by ring,
    show (0:ℝ) + 1 * (2 * Real.pi / 3) = 2 * Real.pi / 3 by ring,
    show (0:ℝ) + 2 * (2 * Real.pi / 3) = 2 * (2 * Real.pi / 3) by ring,
    Real.cos_zero, Real.sin_zero, cos_2pi3, sin_2pi3, cos_4pi3, sin_4pi3]
  norm_num

/-- Claim C4, counterexample: for `n = 3` the generator stops after the single
equator ring of 3 vectors.  The vector `(1,0,0)` is returned, is not a pole
vector (its z-component is 0, while the pole ring vectors are `(0,0,±1)`),
yet its exact negation `(-1,0,0)` is not among the returned vectors: the
equator ring (`theta = 0`, where no negation is pushed) of odd azimuthal
count is not antipodally closed. -/
theorem claim4_counterexample :
    (((1:ℝ), (0:ℝ), (0:ℝ)) ∈ uniform_sphere_xyz 3) ∧
    ((1:ℝ), (0:ℝ), (0:ℝ)).2.2 = 0 ∧
    (((1:ℝ), (0:ℝ), (0:ℝ)) ≠ ((0:ℝ), (0:ℝ), (1:ℝ)) ∧
     ((1:ℝ), (0:ℝ), (0:ℝ)) ≠ ((0:ℝ), (0:ℝ), (-1:ℝ))) ∧
    (((-1:ℝ), (0:ℝ), (0:ℝ)) ∉ uniform_sphere_xyz 3) := by
  rw [usz3]
  refine ⟨by simp, rfl, ⟨by simp [Prod.ext_iff], by simp [Prod.ext_iff]⟩, ?_⟩
  simp only [List.mem_cons, List.not_mem_nil, or_false, Prod.mk.injEq, not_or]
  norm_num

/-- Claim C4, witness: the amended theorem applied at `n = 3`, with its
hypothesis `0 < 3` discharged. -/
theorem claim4_witness :
    (∀ v ∈ uniform_sphere_xyz 3, v.1 ^ 2 + v.2.1 ^ 2 + v.2.2 ^ 2 = 1) ∧
    (∀ v ∈ uniform_sphere_xyz 3, v.2.2 ≠ 0 →
      (-v.1, -v.2.1, -v.2.2) ∈ uniform_sphere_xyz 3) :=
  claim4_amended 3 (by norm_num)


/-! ### Proofs for claim C6 (recipe-5 diagonal normalization) -/

lemma minerbo_closure_pos (Z mu : ℝ) : 0 < minerbo_closure Z mu := by
  rw [minerbo_closure]
  split
  · have hZ : 0 < Z := by linarith [show (1e-3 : ℝ) < Z / 3 from by assumption]
    have hs : 0 < Real.sinh Z := Real.sinh_pos_iff.2 hZ
    positivity
  · positivity

lemma diag_norm (a x : ℝ) (ha : 0 ≤ a) (hx : 0 < x) :
    |a / (a + x + x) + x / (a + x + x) + x / (a + x + x) - 1| ≤ (1e-9 : ℝ) := by
  have hs : 0 < a + x + x := by linarith
  rw [div_add_div_same, div_add_div_same, div_self (ne_of_gt hs)]
  norm_num

/-- Claim C6: under recipe 5 with any flux-factor triple below 0.99, any
nonnegative electron/anti number densities, positive heavy-lepton density
and positive scale factor, each generated sample point's neutrino diagonal
(f00_Re + f11_Re + f22_Re) sums to 1 within 1e-9, and likewise the
antineutrino diagonal (in exact arithmetic the sums are exactly 1, because
the diagonals are the species weights normalized by their total N). -/
theorem claim6_recipe5_diag_sum (P : St5Params) (scale_fac eV : ℝ) (u : ℝ × ℝ × ℝ)
    (r : Fin 12 → ℝ)
    (hfe : fluxfac_e P < 0.99) (hfa : fluxfac_a P < 0.99) (hfx : fluxfac_x P < 0.99)
    (hnnue : 0 ≤ P.st5_nnue) (hnnua : 0 ≤ P.st5_nnua) (hnnux : 0 < P.st5_nnux)
    (hscale : 0 < scale_fac) :
    |((recipe5 P scale_fac eV u r).f00_Re + (recipe5 P scale_fac eV u r).f11_Re +
        (recipe5 P scale_fac eV u r).f22_Re) - 1| ≤ (1e-9 : ℝ) ∧
    |((recipe5 P scale_fac eV u r).f00_Rebar + (recipe5 P scale_fac eV u r).f11_Rebar +
        (recipe5 P scale_fac eV u r).f22_Rebar) - 1| ≤ (1e-9 : ℝ) := by
  have hxpos : 0 < Nnux_thisparticle P scale_fac u := by
    rw [Nnux_thisparticle]
    have := minerbo_closure_pos (minerbo_Z (fluxfac_x P)).1 (st5_mux P u)
    positivity
  have hepos : 0 ≤ Nnue_thisparticle P scale_fac u := by
    rw [Nnue_thisparticle]
    have := minerbo_closure_pos (minerbo_Z (fluxfac_e P)).1 (st5_mue P u)
    positivity
  have hapos : 0 ≤ Nnua_thisparticle P scale_fac u := by
    rw [Nnua_thisparticle]
    have := minerbo_closure_pos (minerbo_Z (fluxfac_a P)).1 (st5_mua P u)
    positivity
  constructor
  · have h00 : (recipe5 P scale_fac eV u r).f00_Re
        = Nnue_thisparticle P scale_fac u /
          (Nnue_thisparticle P scale_fac u + Nnux_thisparticle P scale_fac u +
            Nnux_thisparticle P scale_fac u) := rfl
    have h11 : (recipe5 P scale_fac eV u r).f11_Re
        = Nnux_thisparticle P scale_fac u /
          (Nnue_thisparticle P scale_fac u + Nnux_thisparticle P scale_fac u +
            Nnux_thisparticle P scale_fac u) := rfl
    have h22 : (recipe5 P scale_fac eV u r).f22_Re
        = Nnux_thisparticle P scale_fac u /
          (Nnue_thisparticle P scale_fac u + Nnux_thisparticle P scale_fac u +
            Nnux_thisparticle P scale_fac u) := rfl
    rw [h00, h11, h22]
    exact diag_norm _ _ hepos hxpos
  · have h00 : (recipe5 P scale_fac eV u r).f00_Rebar
        = Nnua_thisparticle P scale_fac u /
          (Nnua_thisparticle P scale_fac u + Nnux_thisparticle P scale_fac u +
            Nnux_thisparticle P scale_fac u) := rfl
    have h11 : (recipe5 P scale_fac eV u r).f11_Rebar
        = Nnux_thisparticle P scale_fac u /
          (Nnua_thisparticle P scale_fac u + Nnux_thisparticle P scale_fac u +
            Nnux_thisparticle P scale_fac u) := rfl
    have h22 : (recipe5 P scale_fac eV u r).f22_Rebar
        = Nnux_thisparticle P scale_fac u /
          (Nnua_thisparticle P scale_fac u + Nnux_thisparticle P scale_fac u +
            Nnux_thisparticle P scale_fac u) := rfl
    rw [h00, h11, h22]
    exact diag_norm _ _ hapos hxpos

lemma st5W_ffe : fluxfac_e st5W < 0.99 := by
  rw [fluxfac_e, show st5W.st5_fxnue = 0 from rfl, show st5W.st5_fynue = 0 from rfl,
    show st5W.st5_fznue = 0 from rfl, show ((0:ℝ) * 0 + 0 * 0 + 0 * 0) = 0 by ring,
    Real.sqrt_zero]
  norm_num

lemma st5W_ffa : fluxfac_a st5W < 0.99 := by
  rw [fluxfac_a, show st5W.st5_fxnua = 0 from rfl, show st5W.st5_fynua = 0 from rfl,
    show st5W.st5_fznua = 0 from rfl, show ((0:ℝ) * 0 + 0 * 0 + 0 * 0) = 0 by ring,
    Real.sqrt_zero]
  norm_num

lemma st5W_ffx : fluxfac_x st5W < 0.99 := by
  rw [fluxfac_x, show st5W.st5_fxnux = 0 from rfl, show st5W.st5_fynux = 0 from rfl,
    show st5W.st5_fznux = 0 from rfl, show ((0:ℝ) * 0 + 0 * 0 + 0 * 0) = 0 by ring,
    Real.sqrt_zero]
  norm_num

/-- Claim C6, witness: the theorem applied to `st5W` with unit scale factor,
all hypotheses discharged at the concrete input. -/
theorem claim6_witness :
    |((recipe5 st5W 1 1 (0, 0, 0) (fun _ => 0)).f00_Re +
        (recipe5 st5W 1 1 (0, 0, 0) (fun _ => 0)).f11_Re +
        (recipe5 st5W 1 1 (0, 0, 0) (fun _ => 0)).f22_Re) - 1| ≤ (1e-9 : ℝ) ∧
    |((recipe5 st5W 1 1 (0, 0, 0) (fun _ => 0)).f00_Rebar +
        (recipe5 st5W 1 1 (0, 0, 0) (fun _ => 0)).f11_Rebar +
        (recipe5 st5W 1 1 (0, 0, 0) (fun _ => 0)).f22_Rebar) - 1| ≤ (1e-9 : ℝ) :=
  claim6_recipe5_diag_sum st5W 1 1 (0, 0, 0) (fun _ => 0)
    st5W_ffe st5W_ffa st5W_ffx
    (by rw [show st5W.st5_nnue = 1 from rfl]; norm_num)
    (by rw [show st5W.st5_nnua = 1 from rfl]; norm_num)
    (by rw [show st5W.st5_nnux = 1 from rfl]; norm_num)
    (by norm_num)


/-! ### Proofs for claims C2, C3, C7, C9 and C10 (Lyapunov subsystem and
recipes 6-7) -/

/-- Claim C9: for every sample point created under recipes 6 and 7 the
antineutrino coherence is the complex conjugate of the neutrino one:
`f01_Rebar = f01_Re` and `f01_Imbar = -f01_Im`. -/
theorem claim9_conjugate_coherence :
    (∀ (erf : ℝ → ℝ) (P : St6Params) (scale_fac eV : ℝ) (u : ℝ × ℝ × ℝ)
        (Nz amax : ℤ) (randTable : ℤ → ℝ) (z : ℝ),
      (recipe6 erf P scale_fac eV u Nz amax randTable z).f01_Rebar
        = (recipe6 erf P scale_fac eV u Nz amax randTable z).f01_Re ∧
      (recipe6 erf P scale_fac eV u Nz amax randTable z).f01_Imbar
        = -(recipe6 erf P scale_fac eV u Nz amax randTable z).f01_Im) ∧
    (∀ (erf : ℝ → ℝ) (P : St7Params) (scale_fac eV : ℝ) (u : ℝ × ℝ × ℝ) (z : ℝ),
      (recipe7 erf P scale_fac eV u z).f01_Rebar
        = (recipe7 erf P scale_fac eV u z).f01_Re ∧
      (recipe7 erf P scale_fac eV u z).f01_Imbar
        = -(recipe7 erf P scale_fac eV u z).f01_Im) :=
  ⟨fun _ _ _ _ _ _ _ _ _ => ⟨rfl, rfl⟩, fun _ _ _ _ _ _ => ⟨rfl, rfl⟩⟩

/-- Claim C3, counterexample: at the trace-1 particle `pC3` with amplitude 1
and all draws `1/2`, the code's update (`perturbP`) disagrees with the
claimed update law (`perturbSpecC3`) on both an off-diagonal entry (the code
adds `A*rand*(f00+f11)`, the sum of the coupled diagonals, giving `3/8`
instead of the claimed `1/8`) and a diagonal entry (the code perturbs
additively by `A*rand` and divides by `1 + summed perturbations`, giving
`2/5` instead of the claimed `1/2`). -/
theorem claim3_counterexample :
    (perturbP 1 rC3 pC3).f01_Re = 3/8 ∧ (perturbSpecC3 1 rC3 pC3).f01_Re = 1/8 ∧
    (perturbP 1 rC3 pC3).f00_Re = 2/5 ∧ (perturbSpecC3 1 rC3 pC3).f00_Re = 1/2 ∧
    (perturbP 1 rC3 pC3).f01_Re ≠ (perturbSpecC3 1 rC3 pC3).f01_Re ∧
    (perturbP 1 rC3 pC3).f00_Re ≠ (perturbSpecC3 1 rC3 pC3).f00_Re := by
  have e1 : (perturbP 1 rC3 pC3).f01_Re
      = pC3.f01_Re + 1 * rC3 1 * (pC3.f00_Re + pC3.f11_Re) := rfl
  have e2 : (perturbSpecC3 1 rC3 pC3).f01_Re
      = pC3.f01_Re + 1 * rC3 1 * (pC3.f00_Re - pC3.f11_Re) := rfl
  have e3 : (perturbP 1 rC3 pC3).f00_Re
      = (pC3.f00_Re + 1 * rC3 0) / (1 + 1 * rC3 0 + 1 * rC3 3 + 1 * rC3 8) := rfl
  have e4 : (perturbSpecC3 1 rC3 pC3).f00_Re
      = pC3.f00_Re * (1 + 1 * rC3 0) / (pC3.f00_Re * (1 + 1 * rC3 0)
        + pC3.f11_Re * (1 + 1 * rC3 3) + pC3.f22_Re * (1 + 1 * rC3 8)) := rfl
  have hf00 : pC3.f00_Re = 1/2 := rfl
  have hf01 : pC3.f01_Re = 0 := rfl
  have hf11 : pC3.f11_Re = 1/4 := rfl
  have hf22 : pC3.f22_Re = 1/4 := rfl
  have hr : ∀ i : Fin 18, rC3 i = 1/2 := fun i => rfl
  have h1 : (perturbP 1 rC3 pC3).f01_Re = 3/8 := by
    rw [e1, hf01, hf00, hf11, hr]
    norm_num
  have h2 : (perturbSpecC3 1 rC3 pC3).f01_Re = 1/8 := by
    rw [e2, hf01, hf00, hf11, hr]
    norm_num
  have h3 : (perturbP 1 rC3 pC3).f00_Re = 2/5 := by
    rw [e3, hf00, hr, hr, hr]
    norm_num
  have h4 : (perturbSpecC3 1 rC3 pC3).f00_Re = 1/2 := by
    rw [e4, hf00, hf11, hf22, hr, hr, hr]
    norm_num
  refine ⟨h1, h2, h3, h4, ?_, ?_⟩
  · rw [h1, h2]; norm_num
  · rw [h3, h4]; norm_num

/-- Claim C3, amended: for every sample point, `PerturbParticlesLyapunov`
perturbs each diagonal entry additively by `amplitude*rand` and renormalizes
the diagonal by dividing by `1 + (sum of the three diagonal perturbations)`
— which equals the summed perturbed diagonal whenever the incoming diagonal
sums to 1, so each species' diagonal again sums to 1 when that denominator
is nonzero — and perturbs each off-diagonal entry additively by
`amplitude*rand*(SUM of the two diagonal entries it couples)`. -/
theorem claim3_amended (A : ℝ) (r : Fin 18 → ℝ) (p : Particle)
    (htr : p.f00_Re + p.f11_Re + p.f22_Re = 1)
    (htrbar : p.f00_Rebar + p.f11_Rebar + p.f22_Rebar = 1)
    (hden : (p.f00_Re + A * r 0) + (p.f11_Re + A * r 3) + (p.f22_Re + A * r 8) ≠ 0)
    (hdenbar : (p.f00_Rebar + A * r 4) + (p.f11_Rebar + A * r 7) +
      (p.f22_Rebar + A * r 9) ≠ 0) :
    ((perturbP A r p).f00_Re = (p.f00_Re + A * r 0) /
      ((p.f00_Re + A * r 0) + (p.f11_Re + A * r 3) + (p.f22_Re + A * r 8)) ∧
     (perturbP A r p).f11_Re = (p.f11_Re + A * r 3) /
      ((p.f00_Re + A * r 0) + (p.f11_Re + A * r 3) + (p.f22_Re + A * r 8)) ∧
     (perturbP A r p).f22_Re = (p.f22_Re + A * r 8) /
      ((p.f00_Re + A * r 0) + (p.f11_Re + A * r 3) + (p.f22_Re + A * r 8)) ∧
     (perturbP A r p).f00_Rebar = (p.f00_Rebar + A * r 4) /
      ((p.f00_Rebar + A * r 4) + (p.f11_Rebar + A * r 7) + (p.f22_Rebar + A * r 9)) ∧
     (perturbP A r p).f11_Rebar = (p.f11_Rebar + A * r 7) /
      ((p.f00_Rebar + A * r 4) + (p.f11_Rebar + A * r 7) + (p.f22_Rebar + A * r 9)) ∧
     (perturbP A r p).f22_Rebar = (p.f22_Rebar + A * r 9) /
      ((p.f00_Rebar + A * r 4) + (p.f11_Rebar + A * r 7) + (p.f22_Rebar + A * r 9))) ∧
    ((perturbP A r p).f01_Re = p.f01_Re + A * r 1 * (p.f00_Re + p.f11_Re) ∧
     (perturbP A r p).f01_Im = p.f01_Im + A * r 2 * (p.f00_Re + p.f11_Re) ∧
     (perturbP A r p).f01_Rebar = p.f01_Rebar + A * r 5 * (p.f00_Rebar + p.f11_Rebar) ∧
     (perturbP A r p).f01_Imbar = p.f01_Imbar + A * r 6 * (p.f00_Rebar + p.f11_Rebar) ∧
     (perturbP A r p).f02_Re = p.f02_Re + A * r 10 * (p.f00_Re + p.f22_Re) ∧
     (perturbP A r p).f02_Im = p.f02_Im + A * r 11 * (p.f00_Re + p.f22_Re) ∧
     (perturbP A r p).f12_Re = p.f12_Re + A * r 12 * (p.f11_Re + p.f22_Re) ∧
     (perturbP A r p).f12_Im = p.f12_Im + A * r 13 * (p.f11_Re + p.f22_Re) ∧
     (perturbP A r p).f02_Rebar = p.f02_Rebar + A * r 14 * (p.f00_Rebar + p.f22_Rebar) ∧
     (perturbP A r p).f02_Imbar = p.f02_Imbar + A * r 15 * (p.f00_Rebar + p.f22_Rebar) ∧
     (perturbP A r p).f12_Rebar = p.f12_Rebar + A * r 16 * (p.f11_Rebar + p.f22_Rebar) ∧
     (perturbP A r p).f12_Imbar = p.f12_Imbar + A * r 17 * (p.f11_Rebar + p.f22_Rebar)) ∧
    ((perturbP A r p).f00_Re + (perturbP A r p).f11_Re + (perturbP A r p).f22_Re = 1 ∧
     (perturbP A r p).f00_Rebar + (perturbP A r p).f11_Rebar +
       (perturbP A r p).f22_Rebar = 1) := by
  have hD : (1 : ℝ) + A * r 0 + A * r 3 + A * r 8
      = (p.f00_Re + A * r 0) + (p.f11_Re + A * r 3) + (p.f22_Re + A * r 8) := by
    linarith
  have hDbar : (1 : ℝ) + A * r 4 + A * r 7 + A * r 9
      = (p.f00_Rebar + A * r 4) + (p.f11_Rebar + A * r 7) + (p.f22_Rebar + A * r 9) := by
    linarith
  have e00 : (perturbP A r p).f00_Re
      = (p.f00_Re + A * r 0) / (1 + A * r 0 + A * r 3 + A * r 8) := rfl
  have e11 : (perturbP A r p).f11_Re
      = (p.f11_Re + A * r 3) / (1 + A * r 0 + A * r 3 + A * r 8) := rfl
  have e22 : (perturbP A r p).f22_Re
      = (p.f22_Re + A * r 8) / (1 + A * r 0 + A * r 3 + A * r 8) := rfl
  have e00b : (perturbP A r p).f00_Rebar
      = (p.f00_Rebar + A * r 4) / (1 + A * r 4 + A * r 7 + A * r 9) := rfl
  have e11b : (perturbP A r p).f11_Rebar
      = (p.f11_Rebar + A * r 7) / (1 + A * r 4 + A * r 7 + A * r 9) := rfl
  have e22b : (perturbP A r p).f22_Rebar
      = (p.f22_Rebar + A * r 9) / (1 + A * r 4 + A * r 7 + A * r 9) := rfl
  refine ⟨⟨by rw [e00, hD], by rw [e11, hD], by rw [e22, hD],
      by rw [e00b, hDbar], by rw [e11b, hDbar], by rw [e22b, hDbar]⟩,
    ⟨rfl, rfl, rfl, rfl, rfl, rfl, rfl, rfl, rfl, rfl, rfl, rfl⟩,
    by rw [e00, e11, e22, hD, div_add_div_same, div_add_div_same, div_self hden],
    by rw [e00b, e11b, e22b, hDbar, div_add_div_same, div_add_div_same,
      div_self hdenbar]⟩

/-- Claim C3, witness: the neutrino diagonal of `perturbP 1 rC3 pC3` sums to
1, by the amended theorem with all hypotheses discharged at that concrete
input. -/
theorem claim3_witness :
    (perturbP 1 rC3 pC3).f00_Re + (perturbP 1 rC3 pC3).f11_Re +
      (perturbP 1 rC3 pC3).f22_Re = 1 :=
  (claim3_amended 1 rC3 pC3
    (by simp only [pC3, pZero]; norm_num)
    (by simp only [pC3, pZero]; norm_num)
    (by simp only [pC3, pZero, rC3]; norm_num)
    (by simp only [pC3, pZero, rC3]; norm_num)).2.2.1

/-- Claim C7, counterexample: called with `ss_vector_diff = 0` on a concrete
one-particle ensemble pair, `RenormalizePerturbationLyapunov` does not abort:
it emits a single non-fatal `amrex::Print` log line (no `amrex::Error`
event) and returns with the current ensemble unchanged. -/
theorem claim7_counterexample :
    (RenormalizePerturbationLyapunov 1 [pZero] [pZero] 0).current = [pZero] ∧
    (RenormalizePerturbationLyapunov 1 [pZero] [pZero] 0).events
      = [AmrexEvent.printMsg] ∧
    AmrexEvent.fatalError ∉ (RenormalizePerturbationLyapunov 1 [pZero] [pZero] 0).events := by
  rw [RenormalizePerturbationLyapunov, if_neg (by simp : ¬ (0:ℝ) ≠ 0)]
  refine ⟨rfl, rfl, by simp⟩

/-- Claim C7, amended: whenever the measured distance passed to
`RenormalizePerturbationLyapunov` is exactly zero, the routine logs one
non-fatal error line (`amrex::Print`, never `amrex::Error`) and returns with
both ensembles unchanged: the failure is reported, not fatal. -/
theorem claim7_amended :
    ∀ (A : ℝ) (cur ref : List Particle),
      (RenormalizePerturbationLyapunov A cur ref 0).current = cur ∧
      (RenormalizePerturbationLyapunov A cur ref 0).reference = ref ∧
      (RenormalizePerturbationLyapunov A cur ref 0).events = [AmrexEvent.printMsg] ∧
      AmrexEvent.fatalError ∉ (RenormalizePerturbationLyapunov A cur ref 0).events := by
  intro A cur ref
  rw [RenormalizePerturbationLyapunov, if_neg (by simp : ¬ (0:ℝ) ≠ 0)]
  refine ⟨rfl, rfl, rfl, by simp⟩

lemma nonflavorEq_refl (p : Particle) : nonflavorEq p p :=
  ⟨rfl, rfl, rfl, rfl, rfl, rfl, rfl, rfl, rfl, rfl, rfl, rfl, rfl, rfl⟩

lemma perturbP_frame (A : ℝ) (r : Fin 18 → ℝ) (p : Particle) :
    nonflavorEq (perturbP A r p) p :=
  ⟨rfl, rfl, rfl, rfl, rfl, rfl, rfl, rfl, rfl, rfl, rfl, rfl, rfl, rfl⟩

lemma renormP_frame (A d : ℝ) (p1 p2 : Particle) : nonflavorEq (renormP A d p1 p2) p1 :=
  ⟨rfl, rfl, rfl, rfl, rfl, rfl, rfl, rfl, rfl, rfl, rfl, rfl, rfl, rfl⟩

lemma perturb_enum_frame (A : ℝ) (rs : ℕ → Fin 18 → ℝ) :
    ∀ (cur : List Particle) (n : ℕ),
      List.Forall₂ nonflavorEq
        (((List.enumFrom n cur).map fun ip => perturbP A (rs ip.1) ip.2)) cur := by
  intro cur
  induction cur with
  | nil => intro n; simp [List.enumFrom]
  | cons p ps ih =>
    intro n
    rw [List.enumFrom, List.map_cons]
    exact List.Forall₂.cons (perturbP_frame A (rs n) p) (ih (n + 1))

/-- Claim C10: `PerturbParticlesLyapunov` and `RenormalizePerturbationLyapunov`
modify only flavor density-matrix components: every particle's id, position,
integrated position, time, momentum, N and Nbar are unchanged (stated
per-particle and ensemble-wise via `Forall₂`); the reference ensemble is
never written; and with a zero measured distance the current ensemble is
returned entirely unchanged. -/
theorem claim10_frame :
    (∀ (A : ℝ) (r : Fin 18 → ℝ) (p : Particle), nonflavorEq (perturbP A r p) p) ∧
    (∀ (A : ℝ) (rs : ℕ → Fin 18 → ℝ) (cur : List Particle),
      List.Forall₂ nonflavorEq (PerturbParticlesLyapunov A rs cur) cur) ∧
    (∀ (A d : ℝ) (p1 p2 : Particle), nonflavorEq (renormP A d p1 p2) p1) ∧
    (∀ (A : ℝ) (cur ref : List Particle) (d : ℝ),
      List.Forall₂ nonflavorEq (RenormalizePerturbationLyapunov A cur ref d).current cur) ∧
    (∀ (A : ℝ) (cur ref : List Particle) (d : ℝ),
      (RenormalizePerturbationLyapunov A cur ref d).reference = ref) ∧
    (∀ (A : ℝ) (cur ref : List Particle),
      (RenormalizePerturbationLyapunov A cur ref 0).current = cur) := by
  refine ⟨perturbP_frame, ?_, renormP_frame, ?_, ?_, ?_⟩
  · intro A rs cur
    rw [PerturbParticlesLyapunov, List.enum]
    exact perturb_enum_frame A rs cur 0
  · intro A cur ref d
    rw [RenormalizePerturbationLyapunov]
    split
    · refine List.forall₂_iff_get.2 ⟨by simp, ?_⟩
      intro i h1 h2
      simp only [List.get_eq_getElem, List.getElem_map]
      rcases hf : findMatch cur[i] ref with _ | p2
      · exact nonflavorEq_refl _
      · exact renormP_frame _ _ _ _
    · exact List.forall₂_same.2 fun p _ => nonflavorEq_refl p
  · intro A cur ref d
    rw [RenormalizePerturbationLyapunov]
    split
    · rfl
    · rfl
  · intro A cur ref
    rw [RenormalizePerturbationLyapunov, if_neg (by simp : ¬ (0:ℝ) ≠ 0)]

lemma keyMatch_renormP (A d : ℝ) (p1 p2 q : Particle) :
    keyMatch (renormP A d p1 p2) q ↔ keyMatch p1 q := Iff.rfl

open scoped Classical in
lemma findMatch_renormP (A d : ℝ) (p1 p2 : Particle) (ref : List Particle) :
    findMatch (renormP A d p1 p2) ref = findMatch p1 ref := by
  induction ref with
  | nil => rfl
  | cons q qs ih =>
    rw [findMatch, findMatch]
    exact if_congr (keyMatch_renormP A d p1 p2 q) rfl ih

lemma renorm_term (A d a b : ℝ) :
    (b + A * (a - b) / d - b) ^ 2 = (A / d) ^ 2 * (a - b) ^ 2 := by
  ring

lemma sqDiff18_renormP (A d : ℝ) (p1 p2 : Particle) :
    sqDiff18 (renormP A d p1 p2) p2 = (A / d) ^ 2 * sqDiff18 p1 p2 := by
  simp only [sqDiff18, renormP, renorm_term]
  ring

lemma sqDiff18_nonneg (p1 p2 : Particle) : 0 ≤ sqDiff18 p1 p2 := by
  rw [sqDiff18]
  positivity

lemma contribDiff_nonneg (ref : List Particle) (p1 : Particle) :
    0 ≤ contribDiff ref p1 := by
  rw [contribDiff]
  rcases findMatch p1 ref with _ | p2
  · exact le_refl 0
  · exact sqDiff18_nonneg p1 p2

lemma sumSqDiff_nonneg (cur ref : List Particle) : 0 ≤ sumSqDiff cur ref := by
  rw [sumSqDiff]
  induction cur with
  | nil => simp
  | cons p ps ih =>
    rw [List.map_cons, List.sum_cons]
    exact add_nonneg (contribDiff_nonneg ref p) ih

lemma contribDiff_renorm (A d : ℝ) (ref : List Particle) (p1 : Particle) :
    contribDiff ref
      (match findMatch p1 ref with
       | some p2 => renormP A d p1 p2
       | none => p1)
      = (A / d) ^ 2 * contribDiff ref p1 ∨
    (contribDiff ref
      (match findMatch p1 ref with
       | some p2 => renormP A d p1 p2
       | none => p1) = 0 ∧ contribDiff ref p1 = 0) := by
  rcases hm : findMatch p1 ref with _ | p2
  · right
    constructor
    · show contribDiff ref p1 = 0
      rw [contribDiff, hm]
    · rw [contribDiff, hm]
  · left
    show contribDiff ref (renormP A d p1 p2) = _
    rw [contribDiff, findMatch_renormP, hm]
    show sqDiff18 (renormP A d p1 p2) p2 = _
    rw [sqDiff18_renormP, contribDiff, hm]

lemma sumSqDiff_renorm (A d : ℝ) (cur ref : List Particle) (hd : d ≠ 0) :
    sumSqDiff (RenormalizePerturbationLyapunov A cur ref d).current ref
      = (A / d) ^ 2 * sumSqDiff cur ref := by
  rw [RenormalizePerturbationLyapunov, if_pos hd]
  show sumSqDiff (cur.map _) ref = _
  rw [sumSqDiff, sumSqDiff, List.map_map]
  induction cur with
  | nil => simp
  | cons p ps ih =>
    rw [List.map_cons, List.sum_cons, List.map_cons, List.sum_cons, mul_add, ih]
    rcases contribDiff_renorm A d ref p with h | ⟨h1, h2⟩
    · rw [Function.comp_apply, h]
    · rw [Function.comp_apply, h1, h2, mul_zero]

/-- Claim C2: for two (single-tile) ensembles whose sample points match
pairwise bit-for-bit on integrated position, time and spatial momentum, if
`d = ComputeStateSpaceDifferenceLyapunov(current, reference)` is nonzero then
after `RenormalizePerturbationLyapunov(current, reference, d)` with the
configured (nonnegative) target amplitude `A`, a further distance evaluation
returns exactly `A` in exact real arithmetic: renormalization scales every
matched pair's componentwise deviation by `A/d`, so the root of the summed
squares rescales from `d` to `A`. -/
theorem claim2_renorm_roundtrip (A : ℝ) (hA : 0 ≤ A) (cur ref : List Particle)
    (hlen : cur.length = ref.length)
    (hpair : ∀ (i : ℕ) (h1 : i < cur.length) (h2 : i < ref.length),
      keyMatch (cur.get ⟨i, h1⟩) (ref.get ⟨i, h2⟩))
    (hd : ComputeStateSpaceDifferenceLyapunov cur ref ≠ 0) :
    ComputeStateSpaceDifferenceLyapunov
      (RenormalizePerturbationLyapunov A cur ref
        (ComputeStateSpaceDifferenceLyapunov cur ref)).current ref = A := by
  have hS : 0 ≤ sumSqDiff cur ref := sumSqDiff_nonneg cur ref
  have hdpos : 0 < ComputeStateSpaceDifferenceLyapunov cur ref := by
    rcases lt_or_eq_of_le (Real.sqrt_nonneg (sumSqDiff cur ref)) with h | h
    · exact h
    · exact absurd h.symm hd
  set d := ComputeStateSpaceDifferenceLyapunov cur ref with hdDef
  rw [ComputeStateSpaceDifferenceLyapunov,
    sumSqDiff_renorm A d cur ref (ne_of_gt hdpos),
    Real.sqrt_mul (by positivity) (sumSqDiff cur ref),
    Real.sqrt_sq (by positivity : (0:ℝ) ≤ A / d)]
  have : Real.sqrt (sumSqDiff cur ref) = d := rfl
  rw [this, div_mul_cancel₀ A (ne_of_gt hdpos)]

lemma findMatch_w : findMatch pOne [pZero] = some pZero := by
  rw [findMatch]
  split
  · rfl
  · case isFalse h =>
      exact absurd ⟨rfl, rfl, rfl, rfl, rfl, rfl, rfl⟩ h

lemma sumSqDiff_w : sumSqDiff [pOne] [pZero] = 1 := by
  rw [sumSqDiff, List.map_cons, List.map_nil, List.sum_cons, List.sum_nil,
    contribDiff, findMatch_w]
  show sqDiff18 pOne pZero + 0 = 1
  rw [sqDiff18]
  show ((1:ℝ) - 0) ^ 2 + (0 - 0) ^ 2 + (0 - 0) ^ 2 + (0 - 0) ^ 2 + (0 - 0) ^ 2 +
    (0 - 0) ^ 2 + (0 - 0) ^ 2 + (0 - 0) ^ 2 + (0 - 0) ^ 2 + (0 - 0) ^ 2 +
    (0 - 0) ^ 2 + (0 - 0) ^ 2 + (0 - 0) ^ 2 + (0 - 0) ^ 2 + (0 - 0) ^ 2 +
    (0 - 0) ^ 2 + (0 - 0) ^ 2 + (0 - 0) ^ 2 + 0 = 1
  norm_num

lemma dist_w : ComputeStateSpaceDifferenceLyapunov [pOne] [pZero] = 1 := by
  rw [ComputeStateSpaceDifferenceLyapunov, sumSqDiff_w, Real.sqrt_one]

/-- Claim C2, witness: the round-trip theorem applied to the concrete
one-particle ensembles `[pOne]`, `[pZero]` (distance 1) with target
amplitude 2, all hypotheses discharged there. -/
theorem claim2_witness :
    ComputeStateSpaceDifferenceLyapunov
      (RenormalizePerturbationLyapunov 2 [pOne] [pZero]
        (ComputeStateSpaceDifferenceLyapunov [pOne] [pZero])).current [pZero] = 2 :=
  claim2_renorm_roundtrip 2 (by norm_num) [pOne] [pZero] rfl
    (by
      intro i h1 h2
      have h0 : i = 0 := by
        simp only [List.length_cons, List.length_nil] at h1
        omega
      subst h0
      exact ⟨rfl, rfl, rfl, rfl, rfl, rfl, rfl⟩)
    (by rw [dist_w]; norm_num)

/-! ### Faithfulness of the fuelled sphere loop -/

lemma sphereAux_stop (n : ℕ) (θ phi0 : ℝ) (h : ¬ θ < Real.pi / 2) :
    ∀ m, sphereAux n m θ phi0 = [] := by
  intro m
  cases m with
  | zero => rfl
  | succ m => rw [sphereAux, if_neg h]

lemma thetaUsed_ge (n : ℕ) (θ : ℝ) (h : θ < Real.pi / 2) : θ ≤ thetaUsed n θ := by
  rw [thetaUsed]
  split
  · exact le_of_lt h
  · exact le_refl θ

lemma sphereAux_fuel (n : ℕ) (hn : 1 ≤ n) :
    ∀ (fuel k : ℕ) (θ phi0 : ℝ),
      Real.pi / 2 - θ ≤ (fuel : ℝ) * dthetaOf n →
      sphereAux n (fuel + k) θ phi0 = sphereAux n fuel θ phi0 := by
  intro fuel
  induction fuel with
  | zero =>
    intro k θ phi0 hb
    have hg : ¬ θ < Real.pi / 2 := by
      simp only [Nat.cast_zero, zero_mul] at hb
      linarith
    rw [sphereAux_stop n θ phi0 hg, sphereAux_stop n θ phi0 hg]
  | succ fuel ih =>
    intro k θ phi0 hb
    by_cases hg : θ < Real.pi / 2
    · rw [show fuel + 1 + k = (fuel + k) + 1 from by omega, sphereAux, sphereAux,
        if_pos hg, if_pos hg]
      congr 1
      apply ih
      have h1 : θ ≤ thetaUsed n θ := thetaUsed_ge n θ hg
      have h2 : ((fuel : ℝ) + 1) * dthetaOf n = (fuel : ℝ) * dthetaOf n + dthetaOf n := by
        ring
      push_cast at hb
      linarith [hb, h2]
    · rw [sphereAux_stop n θ phi0 hg, sphereAux_stop n θ phi0 hg]

/-- Faithfulness of the fuelled loop: any fuel of at least `n+1` yields the
same direction set, so `uniform_sphere_xyz` is the fixed point of the C++
`while(theta < pi/2)` loop, not an artifact of the chosen fuel. -/
theorem uniform_sphere_fuel_insensitive (n : ℕ) (hn : 1 ≤ n) (m : ℕ) (hm : n + 1 ≤ m) :
    sphereAux n m 0 0 = uniform_sphere_xyz n := by
  rw [uniform_sphere_xyz, show m = (n + 1) + (m - (n + 1)) from by omega]
  apply sphereAux_fuel n hn
  have hnn : (1 : ℝ) ≤ (n : ℝ) := by exact_mod_cast hn
  have hp : (0 : ℝ) < Real.pi := Real.pi_pos
  have hd : dthetaOf n = Real.pi * Real.sqrt 3 / (n : ℝ) := rfl
  have hdiv : Real.pi * Real.sqrt 3 / (n : ℝ) > 0 := by positivity
  have hne : (n : ℝ) ≠ 0 := by linarith
  have hsplit : ((n : ℝ) + 1) * (Real.pi * Real.sqrt 3 / (n : ℝ))
      = Real.pi * Real.sqrt 3 + Real.pi * Real.sqrt 3 / (n : ℝ) := by
    field_simp
    ring
  have hge : ((n : ℝ) + 1) * (Real.pi * Real.sqrt 3 / (n : ℝ))
      ≥ Real.pi * Real.sqrt 3 := by
    rw [hsplit]
    linarith [hdiv]
  have hs : Real.pi * Real.sqrt 3 ≥ Real.pi * (3 / 2) := by
    nlinarith [sqrt3_ge]
  push_cast
  rw [hd]
  nlinarith [hge, hs]
